import Mathlib

/-!
# Verification of the Easy-Croatian lesson parser

A shallow embedding of `parse_lessons.py` (the heuristic text segmentation
and classification engine that converts a plain-text dump of the Easy
Croatian textbook into a structured document) together with proofs that
settle the specification claims about it.

Python strings are modelled as Lean `String`s; each regular expression of
the source is embedded as an executable Lean function implementing the
CPython backtracking semantics of that concrete pattern (leftmost match,
lazy/greedy quantifier order, ordered alternation).  Python whitespace and
case folding are modelled over the alphabet actually used by the document:
ASCII plus the Croatian diacritics č ć đ š ž (and their capitals); the
word-character predicate for `\b` likewise covers ASCII alphanumerics, the
underscore and the Croatian diacritics.
-/

/-! ## Character helpers -/

/-- Python `str.strip` whitespace (the ASCII whitespace characters). -/
def isPySpace (c : Char) : Bool :=
  c = ' ' || c = '\t' || c = '\n' || c = '\r' || c = '\u000B' || c = '\u000C'

def isAsciiDigit (c : Char) : Bool := '0' ≤ c && c ≤ '9'

def isAsciiUpper (c : Char) : Bool := 'A' ≤ c && c ≤ 'Z'

def isAsciiLower (c : Char) : Bool := 'a' ≤ c && c ≤ 'z'

/-- The lowercase Croatian diacritics of `CROATIAN_DIACRITICS`. -/
def lowerDiacritics : List Char := ['č', 'ć', 'đ', 'š', 'ž']

/-- The uppercase Croatian diacritics of `CROATIAN_DIACRITICS`. -/
def upperDiacritics : List Char := ['Č', 'Ć', 'Đ', 'Š', 'Ž']

/-- Membership in the `CROATIAN_DIACRITICS` frozenset. -/
def isCroDiacritic (c : Char) : Bool :=
  lowerDiacritics.contains c || upperDiacritics.contains c

/-- Python `str.lower` restricted to ASCII plus the Croatian diacritics. -/
def pyLowerChar (c : Char) : Char :=
  if isAsciiUpper c then Char.ofNat (c.toNat + 32)
  else if c = 'Č' then 'č'
  else if c = 'Ć' then 'ć'
  else if c = 'Đ' then 'đ'
  else if c = 'Š' then 'š'
  else if c = 'Ž' then 'ž'
  else c

/-- Python `\w` (word character) over the document's alphabet:
ASCII alphanumerics, underscore, and the Croatian diacritics. -/
def isWordChar (c : Char) : Bool :=
  isAsciiUpper c || isAsciiLower c || isAsciiDigit c || c = '_' || isCroDiacritic c

/-! ## Python string operations (on `List Char` and `String`) -/

/-- Drop from the right end while the predicate holds. -/
def dropWhileEnd (p : Char → Bool) (l : List Char) : List Char :=
  (l.reverse.dropWhile p).reverse

/-- Python `str.strip()` (no argument: strips whitespace at both ends). -/
def pyStripL (l : List Char) : List Char :=
  dropWhileEnd isPySpace (l.dropWhile isPySpace)

def pyStrip (s : String) : String := String.mk (pyStripL s.data)

/-- Python `str.rstrip()` (strip trailing whitespace). -/
def pyRstrip (s : String) : String := String.mk (dropWhileEnd isPySpace s.data)

/-- Python `str.rstrip(chars)`: strip trailing characters from the set. -/
def pyRstripChars (set : List Char) (s : String) : String :=
  String.mk (dropWhileEnd (fun c => set.contains c) s.data)

/-- Python `str.lstrip(chars)` is not used by the source; `rstrip("\n")` is. -/
def rstripNL (s : String) : String := pyRstripChars ['\n'] s

/-- Python `str.split()` (no argument: split on whitespace runs, no
empties), written with an accumulator for the token being read so the
recursion is structural.  `cur` holds the current token reversed. -/
def pySplitGo (cur : List Char) : List Char → List (List Char)
  | [] => if cur.isEmpty then [] else [cur.reverse]
  | c :: rest =>
    if isPySpace c then
      if cur.isEmpty then pySplitGo [] rest else cur.reverse :: pySplitGo [] rest
    else pySplitGo (c :: cur) rest

def pySplitL (l : List Char) : List (List Char) := pySplitGo [] l

def pySplit (s : String) : List String := (pySplitL s.data).map String.mk

/-- Python `c in s` for a character. -/
def strContainsChar (s : String) (c : Char) : Bool := s.data.contains c

/-- Python `sub in s` substring test / `re.search` of a plain literal. -/
def listContainsSub (sub : List Char) (l : List Char) : Bool :=
  match l with
  | [] => sub.isEmpty
  | _ :: rest => sub.isPrefixOf l || listContainsSub sub rest

def strContainsSub (sub s : String) : Bool := listContainsSub sub.data s.data

/-- Python `str.startswith`. -/
def pyStartsWith (pre s : String) : Bool := pre.data.isPrefixOf s.data

/-- Python `str.endswith`. -/
def pyEndsWith (suf s : String) : Bool := suf.data.isSuffixOf s.data

/-- Python `str.lower()` over the modelled alphabet. -/
def pyLower (s : String) : String := String.mk (s.data.map pyLowerChar)

/-- Python `str.isdigit()` restricted to ASCII digits (the document uses
only ASCII page numbers): nonempty and all digits. -/
def pyIsDigit (s : String) : Bool :=
  !s.data.isEmpty && s.data.all isAsciiDigit

/-- Value of a string of ASCII digits. -/
def digitsToNat (l : List Char) : Nat :=
  l.foldl (fun acc c => acc * 10 + (c.toNat - '0'.toNat)) 0

/-- Python `int(str)`: optional surrounding whitespace, optional sign, at
least one digit (digit-group underscores are not modelled; no id in this
document contains one).  Raising `ValueError` is modelled as `none`. -/
def pyInt? (s : String) : Option Int :=
  let t := pyStripL s.data
  match t with
  | '-' :: ds => if !ds.isEmpty && ds.all isAsciiDigit then some (-(digitsToNat ds : Int)) else none
  | '+' :: ds => if !ds.isEmpty && ds.all isAsciiDigit then some (digitsToNat ds : Int) else none
  | ds => if !ds.isEmpty && ds.all isAsciiDigit then some (digitsToNat ds : Int) else none

/-- Python `" ".join`. -/
def joinSpace : List String → String
  | [] => ""
  | [s] => s
  | s :: rest => s ++ " " ++ joinSpace rest

/-- Python `"\n".join`. -/
def joinNL : List String → String
  | [] => ""
  | [s] => s
  | s :: rest => s ++ "\n" ++ joinNL rest

/-! ## Regex embeddings: footer patterns

`FOOTER_SECTION_RE = ^Easy Croa[!t]an \(rev\. 47b\) / .+$` and
`PAGE_LINE_RE = ^(\d+) / 600$`. -/

/-- `FOOTER_SECTION_RE.match(s)`: literal prefix with one letter from
`[!t]`, the fixed revision text, and a nonempty tail (`.` never matches a
newline and the stripped lines contain none). -/
def footerSectionMatch (s : String) : Bool :=
  let cs := s.data
  "Easy Croa".data.isPrefixOf cs &&
    (match cs.drop 9 with
     | c :: rest =>
       (c = '!' || c = 't') &&
         "an (rev. 47b) / ".data.isPrefixOf rest &&
         !(rest.drop 16).isEmpty &&
         (rest.drop 16).all (fun d => d ≠ '\n')
     | [] => false)

/-- `PAGE_LINE_RE.match(s)`: one or more digits, then the literal " / 600". -/
def pageLineMatch (s : String) : Bool :=
  let cs := s.data
  let ds := cs.takeWhile isAsciiDigit
  !ds.isEmpty && cs.drop ds.length = " / 600".data

/-! ## Footer Stripper (`strip_footers`)

The Python loop advances an index; here the same loop is written with an
explicit fuel argument that decreases structurally (every iteration
consumes at least one line, so `lines.length` fuel always suffices). -/

/-- After a footer line: skip blank lines, then one optional page-counter
line (the body of the `while`/`if` at source lines 153-158). -/
def afterFooter (ls : List String) : List String :=
  match ls.dropWhile (fun l => pyStrip l = "") with
  | l :: tl => if pageLineMatch (pyStrip l) then tl else l :: tl
  | [] => []

def stripFootersGo (fuel : Nat) (ls : List String) : List String :=
  match fuel, ls with
  | 0, _ => []
  | _, [] => []
  | fuel + 1, l :: rest =>
    if footerSectionMatch (pyStrip l) then stripFootersGo fuel (afterFooter rest)
    else l :: stripFootersGo fuel rest

/-- `strip_footers(lines)`. -/
def strip_footers (ls : List String) : List String := stripFootersGo (ls.length + 1) ls

/-! ## Croatian language helpers (`has_diacritic`, `looks_croatian`) -/

def has_diacritic (s : String) : Bool := s.data.any isCroDiacritic

/-- The letter class of `CROATIAN_INF_RE`: ASCII letters plus diacritics. -/
def infLetter (c : Char) : Bool :=
  isAsciiLower c || isAsciiUpper c || isCroDiacritic c

/-- The alternation of Croatian infinitive endings in `CROATIAN_INF_RE`. -/
def infSuffixes : List String := ["ati", "iti", "eti", "ovati", "ivati", "nuti", "sti", "ći"]

/-- `CROATIAN_INF_RE.match(w)` (IGNORECASE, anchored both ends by
`re.match` plus `$`): one or more letters followed by one of the endings,
covering the whole word. -/
def croatianInfMatch (w : String) : Bool :=
  let cs := w.data
  infSuffixes.any (fun suf =>
    suf.data.isSuffixOf (cs.map pyLowerChar) &&
      decide (suf.data.length < cs.length) &&
      (cs.take (cs.length - suf.data.length)).all infLetter)

/-- `looks_croatian(word)`. -/
def looks_croatian (word : String) : Bool :=
  has_diacritic word || croatianInfMatch word

/-! ## `VOCAB_FULL_RE` embedding

```
^([a-zA-ZčćđšžČĆĐŠŽ][a-zA-ZčćđšžČĆĐŠŽ hyphen slash space]{0,50}?(?:\([^)]+\))?)\s+
 ([a-z®][^.!?]*|[A-Z][a-z ,;:\-®()slash]{1,100})$
```
(the first inner class is the letters plus "-", "/" and " ", spelled out
above to keep the comment well formed)

The lazy quantifier is realised as a loop trying the shortest core first;
within one core length the optional parenthetical group is greedy (tried
present, then absent), exactly as the CPython backtracking engine does. -/

def vocabClassC (c : Char) : Bool :=
  infLetter c || c = '-' || c = '/' || c = ' '

def isSentencePunct (c : Char) : Bool := c = '.' || c = '!' || c = '?'

def vocabG2Class2 (c : Char) : Bool :=
  isAsciiLower c || c = ' ' || c = ',' || c = ';' || c = ':' || c = '-' ||
    c = '®' || c = '(' || c = ')' || c = '/'

/-- The second capture group: `[a-z®][^.!?]*|[A-Z][a-z ,;:\-®()/]{1,100}`,
forced by the final `$` to cover the rest of the line. -/
def vocabG2Ok (cs : List Char) : Bool :=
  match cs with
  | [] => false
  | c :: rest =>
    ((isAsciiLower c || c = '®') && rest.all (fun d => !isSentencePunct d)) ||
      (isAsciiUpper c && decide (1 ≤ rest.length) && decide (rest.length ≤ 100) &&
        rest.all vocabG2Class2)

/-- `\([^)]+\)` at the start of the input: returns the matched text and
the remainder. -/
def parenAt (cs : List Char) : Option (List Char × List Char) :=
  match cs with
  | '(' :: rest =>
    let inner := rest.takeWhile (fun c => c ≠ ')')
    if inner.isEmpty then none
    else
      match rest.drop inner.length with
      | ')' :: tl => some ('(' :: (inner ++ [')']), tl)
      | _ => none
  | _ => none

/-- `\s+` then group 2 reaching the end of the line. -/
def wsThenG2 (cs : List Char) : Option (List Char) :=
  let ws := cs.takeWhile isPySpace
  if ws.isEmpty then none
  else
    let r := cs.drop ws.length
    if vocabG2Ok r then some r else none

/-- One attempt at a fixed core length: optional parenthetical (greedy),
then whitespace and group 2. -/
def vocabAfterCore (g1core rest : List Char) : Option (List Char × List Char) :=
  match parenAt rest with
  | some (p, rest') =>
    match wsThenG2 rest' with
    | some g2 => some (g1core ++ p, g2)
    | none =>
      match wsThenG2 rest with
      | some g2 => some (g1core, g2)
      | none => none
  | none =>
    match wsThenG2 rest with
    | some g2 => some (g1core, g2)
    | none => none

/-- The lazy `{0,50}?` loop: try the current core, else extend it by one
class character (at most 50 beyond the leading letter). -/
def vocabLoop (g1core rest : List Char) (k : Nat) : Option (List Char × List Char) :=
  match vocabAfterCore g1core rest with
  | some res => some res
  | none =>
    match rest with
    | c :: rest' =>
      if k < 50 && vocabClassC c then vocabLoop (g1core ++ [c]) rest' (k + 1)
      else none
    | [] => none

/-- `VOCAB_FULL_RE.match(s)`: the two capture groups, or `none`. -/
def vocabMatch (cs : List Char) : Option (List Char × List Char) :=
  match cs with
  | c :: rest => if infLetter c then vocabLoop [c] rest 0 else none
  | [] => none

/-- `re.search(r"\(([^)]+)\)", s)`: leftmost match; returns the text
before the match and the matched text. -/
def parenSearch (cs : List Char) : Option (List Char × List Char) :=
  match cs with
  | [] => none
  | c :: rest =>
    match parenAt (c :: rest) with
    | some (p, _) => some ([], p)
    | none =>
      match parenSearch rest with
      | some (pre, p) => some (c :: pre, p)
      | none => none

/-! ## `parse_vocab_line` -/

structure VocabEntry where
  croatian : String
  english : String
  notes : String
  type : String
deriving Repr, DecidableEq, Inhabited

/-- The alternation of `^(The|In|It|At|On|For|This|That|These|Those|There|Here)\s+[a-z]`. -/
def vocabEnglishStarters : List String :=
  ["The", "In", "It", "At", "On", "For", "This", "That", "These", "Those", "There", "Here"]

/-- `re.match` of the English-continuation guard at source line 315. -/
def vocabEnglishContinuation (s : String) : Bool :=
  vocabEnglishStarters.any (fun w =>
    w.data.isPrefixOf s.data &&
      (let r := s.data.drop w.data.length
       let ws := r.takeWhile isPySpace
       !ws.isEmpty &&
         (match r.drop ws.length with
          | c :: _ => isAsciiLower c
          | [] => false)))

/-- `parse_vocab_line(line)` (source lines 281-343). -/
def parse_vocab_line (line : String) : Option VocabEntry :=
  let stripped := pyStrip line
  if stripped = "" || stripped.length > 120 then none
  else if pyEndsWith ":" stripped ||
      (pyStartsWith "(" stripped && !strContainsChar stripped ')') then none
  else
    match vocabMatch stripped.data with
    | none => none
    | some (g1, g2) =>
      let croatianRaw := pyStrip (String.mk g1)
      let englishRaw := pyStrip (String.mk g2)
      -- group 1 starts with a letter, so `croatian_raw.split()` is nonempty
      let firstWord := pyRstripChars ['(', ')'] ((pySplit croatianRaw).headD "")
      if !looks_croatian firstWord then none
      else if vocabEnglishContinuation englishRaw then none
      else
        let cp :=
          match parenSearch croatianRaw.data with
          | some (pre, p) => (pyStrip (String.mk pre), String.mk p)
          | none => (croatianRaw, "")
        let er :=
          if strContainsChar englishRaw '®' then
            (pyStrip (String.mk (englishRaw.data.filter (fun c => c ≠ '®'))), "®")
          else (englishRaw, "")
        let notes := joinSpace (([cp.2, er.2]).filter (fun s => s ≠ ""))
        let wordType :=
          if cp.2 ≠ "" || croatianInfMatch ((pySplit cp.1).headD "") then "verb" else ""
        some { croatian := cp.1, english := pyRstripChars ['.', ','] er.1,
               notes := notes, type := wordType }

/-! ## `EXAMPLE_LINE_RE` and `parse_example_line` -/

structure ExamplePair where
  croatian : String
  english : String
deriving Repr, DecidableEq, Inhabited

/-- `re.search(r"[.!?]\s*®?$", s)`: the line ends with sentence
punctuation, optional whitespace, and an optional regional marker. -/
def endsSentencePunct (s : String) : Bool :=
  let r := s.data.reverse
  let r1 := match r with | '®' :: tl => tl | _ => r
  let r2 := r1.dropWhile isPySpace
  match r2 with
  | c :: _ => isSentencePunct c
  | [] => false

/-- Group 2 of `EXAMPLE_LINE_RE`: `[A-Z(][^.!?]+[.!?]\s*®?` reaching the
end of the line. -/
def exampleG2Ok (g2 : List Char) : Bool :=
  match g2 with
  | [] => false
  | c :: rest =>
    (isAsciiUpper c || c = '(') &&
      (let u := rest.takeWhile (fun d => !isSentencePunct d)
       !u.isEmpty &&
         (match rest.drop u.length with
          | _ :: tail =>
            let tail2 := tail.dropWhile isPySpace
            tail2.isEmpty || tail2 = ['®']
          | [] => false))

/-- `EXAMPLE_LINE_RE.match(s) = ^([^.!?]+[.!?])\s+([A-Z(][^.!?]+[.!?]\s*®?)$`:
group 1 necessarily ends at the first punctuation character. -/
def exampleMatch (cs : List Char) : Option (List Char × List Char) :=
  let pre := cs.takeWhile (fun c => !isSentencePunct c)
  if pre.isEmpty then none
  else
    match cs.drop pre.length with
    | p :: rest =>
      let ws := rest.takeWhile isPySpace
      if ws.isEmpty then none
      else
        let g2 := rest.drop ws.length
        if exampleG2Ok g2 then some (pre ++ [p], g2) else none
    | [] => none

/-- `re.search(r"\b[A-Z][a-z]+\b", s)`: a capitalized word. -/
def capWordGo (prev : Option Char) (cs : List Char) : Bool :=
  match cs with
  | [] => false
  | c :: rest =>
    let boundary := match prev with | none => true | some p => !isWordChar p
    if boundary && isAsciiUpper c &&
        (let run := rest.takeWhile isAsciiLower
         !run.isEmpty &&
           (match rest.drop run.length with
            | [] => true
            | d :: _ => !isWordChar d)) then true
    else capWordGo (some c) rest

def capWordSearch (s : String) : Bool := capWordGo none s.data

/-- The alternation of the English-prose guard at source lines 385-388. -/
def exampleEnglishStarters : List String :=
  ["the", "in", "it", "at", "on", "for", "this", "that", "from", "with", "to", "as", "by", "of",
   "a ", "an ", "so ", "but", "and", "or ", "not", "no ", "also", "such", "some", "most",
   "The", "In", "It", "At", "On", "For", "This", "That", "From", "With", "To", "As", "By", "Of",
   "A ", "An ", "So ", "But", "And", "Or ", "Not", "No ", "Also", "Such", "Some", "Most"]

/-- `re.match` of the guard: one of the alternatives, then one whitespace. -/
def exampleEnglishStart (s : String) : Bool :=
  exampleEnglishStarters.any (fun w =>
    w.data.isPrefixOf s.data &&
      (match s.data.drop w.data.length with
       | c :: _ => isPySpace c
       | [] => false))

/-- `parse_example_line(line)` (source lines 346-392). -/
def parse_example_line (line : String) : Option ExamplePair :=
  let stripped := pyStrip line
  if stripped = "" || stripped.length > 250 then none
  else if !endsSentencePunct stripped then none
  else
    match exampleMatch stripped.data with
    | none => none
    | some (g1, g2) =>
      let croatian := pyStrip (String.mk g1)
      let english := pyStrip (String.mk g2)
      if (pyRstripChars ['.', '!', '?'] croatian).length < 5 then none
      else if croatian.length > 150 || english.length > 150 then none
      else if !(has_diacritic croatian || capWordSearch croatian) then none
      else if exampleEnglishStart croatian then none
      else some { croatian := croatian, english := english }

/-! ## Section id patterns (`LESSON_ID_RE`, `APPENDIX_ID_RE`, `LIST_ID_RE`,
`CORE_DICT_RE`)

These are applied by the source only to stripped lines, which contain no
newline, so the `$` anchor is plain end-of-string here. -/

/-- `^(\d{2}) (.+)$`. -/
def lessonIdMatch (s : String) : Option (String × String) :=
  match s.data with
  | a :: b :: ' ' :: rest =>
    if isAsciiDigit a && isAsciiDigit b && !rest.isEmpty && rest.all (fun c => c ≠ '\n') then
      some (String.mk [a, b], String.mk rest)
    else none
  | _ => none

/-- `^(A\d) (.+)$`. -/
def appendixIdMatch (s : String) : Option (String × String) :=
  match s.data with
  | 'A' :: d :: ' ' :: rest =>
    if isAsciiDigit d && !rest.isEmpty && rest.all (fun c => c ≠ '\n') then
      some (String.mk ['A', d], String.mk rest)
    else none
  | _ => none

/-- `^(L\d) (.+)$`. -/
def listIdMatch (s : String) : Option (String × String) :=
  match s.data with
  | 'L' :: d :: ' ' :: rest =>
    if isAsciiDigit d && !rest.isEmpty && rest.all (fun c => c ≠ '\n') then
      some (String.mk ['L', d], String.mk rest)
    else none
  | _ => none

/-- `CORE_DICT_RE.match = ^Core Dictionary$`. -/
def coreDictMatch (s : String) : Bool := s = "Core Dictionary"

/-! ## TOC data model

The Python `dict` is modelled as an insertion-ordered association list;
`toc[k] = v` replaces in place or appends (`dictInsert`), lookup and
membership follow the unique binding per key. -/

structure TocEntry where
  title : String
  page : Option Nat
deriving Repr, DecidableEq, Inhabited

abbrev Toc : Type := List (String × TocEntry)

def tocEmpty : Toc := []

def dictInsert (k : String) (v : TocEntry) : Toc → Toc
  | [] => [(k, v)]
  | (k', v') :: rest => if k' = k then (k, v) :: rest else (k', v') :: dictInsert k v rest

def dictFind? : Toc → String → Option TocEntry
  | [], _ => none
  | (k', v) :: rest, k => if k' = k then some v else dictFind? rest k

/-! ## `parse_toc` -/

/-- Index of the first line whose strip equals "Contents". -/
def findContents : List String → Option Nat
  | [] => none
  | l :: rest =>
    if pyStrip l = "Contents" then some 0 else (findContents rest).map (· + 1)

/-- Is the next non-blank line after index `i` present and not purely
numeric (the check at source lines 97-100)? -/
def introCheck (lines : List String) (i : Nat) : Bool :=
  match (lines.drop (i + 1)).dropWhile (fun l => pyStrip l = "") with
  | x :: _ => !pyIsDigit (pyStrip x)
  | [] => false

/-- The prose "Introduction" scan over `range(contents_idx+1,
min(contents_idx+400, len(lines)))`. -/
def findIntroIdx (lines : List String) (c : Nat) : Option Nat :=
  (List.range' (c + 1) (min (c + 400) lines.length - (c + 1))).find? (fun i =>
    pyStrip (lines.getD i "") = "Introduction" && introCheck lines i)

/-- `end = intro_idx if intro_idx else min(contents_idx + 350, len(lines))`;
the Python truthiness test also sends an index of 0 to the fallback. -/
def tocEnd (lines : List String) (c : Nat) : Nat :=
  match findIntroIdx lines c with
  | some i => if i = 0 then min (c + 350) lines.length else i
  | none => min (c + 350) lines.length

/-- One TOC row: an id pattern (title is `m.group(2).strip()`) or the
Core Dictionary literal. -/
def tocIdOf (s : String) : Option (String × String) :=
  match lessonIdMatch s with
  | some r => some (r.1, pyStrip r.2)
  | none =>
    match appendixIdMatch s with
    | some r => some (r.1, pyStrip r.2)
    | none =>
      match listIdMatch s with
      | some r => some (r.1, pyStrip r.2)
      | none => if coreDictMatch s then some ("CORE", "Core Dictionary") else none

/-- Page lookup: the next non-blank line, if purely numeric (source
lines 127-136). -/
def tocPageOf (rest : List String) : Option Nat :=
  match rest.dropWhile (fun l => pyStrip l = "") with
  | x :: _ => if pyIsDigit (pyStrip x) then some (digitsToNat (pyStrip x).data) else none
  | [] => none

def tocLoop : List String → Toc → Toc
  | [], acc => acc
  | l :: rest, acc =>
    match tocIdOf (pyStrip l) with
    | some st => tocLoop rest (dictInsert st.1 ⟨st.2, tocPageOf rest⟩ acc)
    | none => tocLoop rest acc

/-- `parse_toc(lines)` (source lines 72-141). -/
def parse_toc (lines : List String) : Toc :=
  match findContents lines with
  | none => tocEmpty
  | some c => tocLoop ((lines.take (tocEnd lines c)).drop c) tocEmpty

/-! ## `normalise_title` -/

/-- Does `\s*\([^)]+\)\s*$` match at the start of this suffix? -/
def parenSuffixAt (cs : List Char) : Bool :=
  match cs.dropWhile isPySpace with
  | '(' :: b =>
    let inner := b.takeWhile (fun c => c ≠ ')')
    !inner.isEmpty &&
      (match b.drop inner.length with
       | ')' :: tail => tail.all isPySpace
       | _ => false)
  | _ => false

/-- `re.sub(r"\s*\([^)]+\)\s*$", "", title)`: delete from the leftmost
start position at which the end-anchored pattern matches. -/
def removeParenSuffix : List Char → List Char
  | [] => []
  | c :: rest => if parenSuffixAt (c :: rest) then [] else c :: removeParenSuffix rest

/-- `re.sub(r"\s+", " ", t)`: collapse whitespace runs to single spaces. -/
def collapseWsGo (prevSpace : Bool) : List Char → List Char
  | [] => []
  | c :: rest =>
    if isPySpace c then
      if prevSpace then collapseWsGo true rest else ' ' :: collapseWsGo true rest
    else c :: collapseWsGo false rest

/-- `normalise_title(title)` (source lines 167-171). -/
def normalise_title (title : String) : String :=
  let t := String.mk (removeParenSuffix title.data)
  pyRstripChars ['.', ',', ':', ';']
    (String.mk (collapseWsGo false (pyLower (pyStrip t)).data))

/-! ## `split_into_sections` -/

structure Section where
  id : String
  title : String
  page_start : Option Nat
  lines : List String
deriving Repr, DecidableEq, Inhabited

/-- One id pattern attempt inside `is_known_header`: on a pattern match,
validate the id against the TOC and the candidate title against the TOC
title (equal normalisations, or a long candidate that is a prefix of the
TOC title); on failure fall through to the next pattern. -/
def headerTry (toc : Toc) (m : Option (String × String)) : Option (String × String × Option Nat) :=
  match m with
  | some (sid, candTitle0) =>
    let candTitle := pyStrip candTitle0
    match dictFind? toc sid with
    | some info =>
      let nc := normalise_title candTitle
      let nt := normalise_title info.title
      if nc = nt || (decide (15 ≤ nc.length) && pyStartsWith nc nt) then
        some (sid, info.title, info.page)
      else none
    | none => none
  | none => none

/-- The pattern cascade of `is_known_header` after the context check. -/
def headerPatterns (toc : Toc) (s : String) : Option (String × String × Option Nat) :=
  match headerTry toc (lessonIdMatch s) with
  | some r => some r
  | none =>
    match headerTry toc (appendixIdMatch s) with
    | some r => some r
    | none =>
      match headerTry toc (listIdMatch s) with
      | some r => some r
      | none =>
        if coreDictMatch s then
          match dictFind? toc "CORE" with
          | some info => some ("CORE", "Core Dictionary", info.page)
          | none => none
        else none

/-- `is_known_header(stripped_line, prev_lines)` (source lines 188-224):
reject when the nearest non-blank of the previous five lines ends with a
colon or comma, else run the pattern cascade. -/
def is_known_header (toc : Toc) (strippedLine : String) (prevLines : List String) :
    Option (String × String × Option Nat) :=
  match ((prevLines.reverse.take 5).map pyStrip).find? (fun p => p ≠ "") with
  | some p =>
    if pyEndsWith ":" p || pyEndsWith "," p then none
    else headerPatterns toc strippedLine
  | none => headerPatterns toc strippedLine

/-- Index just past the second occurrence test: the index of the second
line whose strip is "Introduction", or 0 when there is no second one
(source lines 230-237). -/
def contentStartGo : List String → Nat → Nat → Nat
  | [], _, _ => 0
  | l :: rest, i, cnt =>
    if pyStrip l = "Introduction" then
      if cnt + 1 = 2 then i else contentStartGo rest (i + 1) (cnt + 1)
    else contentStartGo rest (i + 1) cnt

def contentStart (raw : List String) : Nat := contentStartGo raw 0 0

/-- The context window `raw_lines[max(0, i-5):i]`, maintained as the last
five processed lines. -/
def pushWin (w : List String) (l : String) : List String :=
  let w' := w ++ [l]
  w'.drop (w'.length - 5)

/-- The scanning loop of `split_into_sections` (source lines 240-261).
The `toc_by_norm` table built at source lines 180-183 is dead code (never
read) and is not modelled. -/
def splitGo (toc : Toc) : List String → List String → Option Section → List Section → List Section
  | [], _, cur, acc => acc ++ cur.toList
  | l :: rest, win, cur, acc =>
    match is_known_header toc (pyStrip l) win with
    | some h =>
      splitGo toc rest (pushWin win l) (some ⟨h.1, h.2.1, h.2.2, []⟩) (acc ++ cur.toList)
    | none =>
      match cur with
      | some c => splitGo toc rest (pushWin win l) (some { c with lines := c.lines ++ [rstripNL l] }) acc
      | none => splitGo toc rest (pushWin win l) none acc

/-- `split_into_sections(raw_lines, toc)` (source lines 174-263). -/
def split_into_sections (raw : List String) (toc : Toc) : List Section :=
  let cs := contentStart raw
  splitGo toc (raw.drop cs) ((raw.take cs).drop (cs - 5)) none []

/-! ## Content patterns (`EXERCISE_RE`, `SPI_RE`, `SEPARATOR_RE`, `TIP_RE`) -/

def exerciseMatch (s : String) : Bool := s = "• Exercise"

def spiMatch (s : String) : Bool := s = "• Something Possibly Interesting"

/-- `^_{4,}$`. -/
def separatorMatch (s : String) : Bool :=
  decide (4 ≤ s.length) && s.data.all (fun c => c = '_')

/-- `re.search(r"_{4,}", s)`: four consecutive underscores anywhere. -/
def hasRun4Underscores (s : String) : Bool :=
  let rec go : List Char → Bool
    | [] => false
    | c :: rest => (c = '_' && ['_', '_', '_'].isPrefixOf rest) || go rest
  go s.data

/-- The lead-in alternation of `TIP_RE` (IGNORECASE, anchored at start). -/
def tipLeads : List String :=
  ["warning.", "a warning.", "a suggestion.", "a note.", "note.", "tip."]

def tipMatch (s : String) : Bool :=
  tipLeads.any (fun w => w.data.isPrefixOf (pyLower s).data)

/-! ## `parse_exercise_block` -/

structure ExerciseItem where
  prompt : String
  answer : String
deriving Repr, DecidableEq, Inhabited

structure Exercise where
  instruction : String
  items : List ExerciseItem
deriving Repr, DecidableEq, Inhabited

/-- The collection loop of `parse_exercise_block` (source lines 395-423),
running on the lines after the `• Exercise` marker and returning the
exercise together with the unconsumed remainder of the line list. -/
def exerciseBlockGo (ls : List String) (instr : List String) (items : List ExerciseItem) :
    Exercise × List String :=
  match ls with
  | [] => ({ instruction := pyStrip (joinSpace instr), items := items }, [])
  | l :: rest =>
    let s := pyStrip l
    if exerciseMatch s || spiMatch s || separatorMatch s then
      ({ instruction := pyStrip (joinSpace instr), items := items }, l :: rest)
    else if pyStartsWith "Check answers" s then
      ({ instruction := pyStrip (joinSpace instr), items := items }, rest)
    else if hasRun4Underscores s && decide (4 < s.length) then
      exerciseBlockGo rest instr (items ++ [⟨s, ""⟩])
    else if items.isEmpty && s ≠ "" then
      exerciseBlockGo rest (instr ++ [s]) items
    else
      exerciseBlockGo rest instr items

def parse_exercise_block (ls : List String) : Exercise × List String :=
  exerciseBlockGo ls [] []

/-- Collect lines until (excluding) the first satisfying `p`; the
remainder starts with that line. -/
def spanUntil (p : String → Bool) : List String → List String × List String
  | [] => ([], [])
  | l :: ls =>
    if p l then ([], l :: ls)
    else
      let r := spanUntil p ls
      (l :: r.1, r.2)

/-! ## `generate_topics`

Each `keyword_map` pattern is a disjunction of literals, each literal
optionally guarded by a word boundary on either side (all the literals
begin and end with word characters, so `\b` is exactly "preceded by
start-of-string or a non-word character" resp. "followed by end or a
non-word character"). -/

/-- Search for a literal with optional word boundaries. -/
def searchBndLitGo (pre : Bool) (lit : List Char) (post : Bool) :
    Option Char → List Char → Bool
  | _, [] => false
  | prev, c :: rest =>
    let preOk := !pre || (match prev with | none => true | some p => !isWordChar p)
    let hit := preOk && lit.isPrefixOf (c :: rest) &&
      (!post ||
        (match (c :: rest).drop lit.length with
         | [] => true
         | d :: _ => !isWordChar d))
    hit || searchBndLitGo pre lit post (some c) rest

def searchBndLit (pre : Bool) (lit : String) (post : Bool) (s : List Char) : Bool :=
  searchBndLitGo pre lit.data post none s

/-- The `keyword_map` of `generate_topics` (source lines 431-462): each
entry is (alternatives, tag), an alternative being
(leading word boundary, literal, trailing word boundary). -/
def keywordMap : List (List (Bool × String × Bool) × String) :=
  [([(false, "alphabet", false)], "alphabet"),
   ([(false, "pronunciation", false)], "pronunciation"),
   ([(false, "vowel", false)], "vowels"),
   ([(false, "consonant", false)], "consonants"),
   ([(false, "stress", false)], "stress"),
   ([(true, "verb", false)], "verbs"),
   ([(true, "noun", false)], "nouns"),
   ([(true, "adjective", false)], "adjectives"),
   ([(true, "pronoun", false)], "pronouns"),
   ([(true, "adverb", false)], "adverbs"),
   ([(true, "preposition", false)], "prepositions"),
   ([(false, "accusative", false)], "accusative"),
   ([(false, "genitive", false)], "genitive"),
   ([(true, "dative", true)], "dative"),
   ([(true, "locative", true)], "locative"),
   ([(false, "instrumental", false)], "instrumental"),
   ([(false, "vocative", false)], "vocative"),
   ([(true, "plural", true)], "plural"),
   ([(false, "past tense", false)], "past-tense"),
   ([(false, "future tense", false)], "future-tense"),
   ([(false, "present tense", false)], "present-tense"),
   ([(true, "number", false)], "numbers"),
   ([(true, "gender", true)], "gender"),
   ([(false, "color", false), (false, "colour", false)], "colors"),
   ([(false, "question", false)], "questions"),
   ([(false, "negation", false), (false, "negative", false)], "negation"),
   ([(false, "conditional", false)], "conditionals"),
   ([(false, "relative clause", false)], "relative-clauses"),
   ([(false, "dialect", false)], "dialects"),
   ([(false, "comparative", false)], "comparatives")]

/-- `generate_topics(title, content_text)` (source lines 426-469). -/
def generate_topics (title content : String) : List String :=
  let combined := (pyLower (title ++ " " ++ content)).data
  let topics := keywordMap.foldl (fun acc pt =>
    if pt.1.any (fun alt => searchBndLit alt.1 alt.2.1 alt.2.2 combined) &&
        !acc.contains pt.2 then
      acc ++ [pt.2]
    else acc) []
  topics.take 10

/-- The grammar-term alternation of the search at source lines 656-660
(IGNORECASE, word boundaries on both sides). -/
def grammarTerms : List String :=
  ["accusative", "genitive", "dative", "locative", "instrumental", "nominative",
   "vocative", "infinitive", "present tense", "past tense", "future tense"]

def grammarNoteSearch (s : String) : Bool :=
  grammarTerms.any (fun t => searchBndLit true t true (pyLower s).data)

/-! ## `parse_core_dict_entries` -/

structure DictEntry where
  croatian : String
  english : String
  part_of_speech : String
deriving Repr, DecidableEq, Inhabited

/-- `^[A-ZČĆĐŠŽ]{1,2}$`: an alphabet-index marker line. -/
def idxMark (s : String) : Bool :=
  let cs := s.data
  decide (1 ≤ cs.length) && decide (cs.length ≤ 2) &&
    cs.all (fun c => isAsciiUpper c || upperDiacritics.contains c)

/-- The alphabet-index scan of source lines 478-493: the first marker line
with at least five marker lines in the next ten defines the block; the
block ends after the contiguous run of marker lines. -/
def alphaEndGo : Nat → List String → Nat
  | _, [] => 0
  | i, l :: rest =>
    if idxMark (pyStrip l) &&
        decide (5 ≤ ((l :: rest).take 10).countP (fun x => idxMark (pyStrip x))) then
      i + ((l :: rest).takeWhile (fun x => idxMark (pyStrip x))).length
    else alphaEndGo (i + 1) rest

/-- The inner character class of `entry_re`'s first group. -/
def entryClassD (c : Char) : Bool :=
  infLetter c || c = '-' || c = '(' || c = ')' || isPySpace c || c = '/' ||
    c = '.' || c = 'ª' || c = '~'

/-- The part-of-speech alternation of `entry_re`, in source order. -/
def posAbbrevs : List String :=
  ["m", "mª", "f", "n", "adj.", "adv.", "impf.", "perf.", "v.p.", "v.t.",
   "pass. adj.", "rel. adj.", "conj.", "prep.", "pron.", "num."]

/-- `\s+(.+)$` (the input lines are stripped, hence newline-free): greedy
whitespace, then a nonempty remainder; when everything after the
whitespace run is empty CPython backtracks one whitespace character into
the final group. -/
def wsPlusRest (r : List Char) : Option (List Char) :=
  let ws := r.takeWhile isPySpace
  if ws.isEmpty then none
  else
    let rem := r.drop ws.length
    if !rem.isEmpty then some rem
    else if 2 ≤ ws.length then some [' ']
    else none

/-- Try the part-of-speech alternatives in order, each with its
continuation. -/
def posTryList : List String → List Char → List Char →
    Option (List Char × List Char × List Char)
  | [], _, _ => none
  | ab :: more, g1, r =>
    if ab.data.isPrefixOf r then
      match wsPlusRest (r.drop ab.data.length) with
      | some meaning => some (g1, ab.data, meaning)
      | none => posTryList more g1 r
    else posTryList more g1 r

/-- After a fixed first-group core: `\s+(POS)\s+(.+)$`. -/
def entryAfterCore (g1core rest : List Char) : Option (List Char × List Char × List Char) :=
  let ws := rest.takeWhile isPySpace
  if ws.isEmpty then none
  else posTryList posAbbrevs g1core (rest.drop ws.length)

/-- The lazy `{0,60}?` loop of `entry_re`'s first group. -/
def entryLoop (g1core rest : List Char) (k : Nat) : Option (List Char × List Char × List Char) :=
  match entryAfterCore g1core rest with
  | some r => some r
  | none =>
    match rest with
    | c :: rest' =>
      if k < 60 && entryClassD c then entryLoop (g1core ++ [c]) rest' (k + 1)
      else none
    | [] => none

/-- `entry_re.match(s)` (source lines 500-505): the three capture groups. -/
def entryMatch (cs : List Char) : Option (List Char × List Char × List Char) :=
  match cs with
  | c :: rest => if infLetter c then entryLoop [c] rest 0 else none
  | [] => none

def lbrace : Char := Char.ofNat 123

def rbrace : Char := Char.ofNat 125

/-- `§\s*\d+` at the start: returns the remainder after also consuming
the `(?:,\s*\d+)*` continuation. -/
def secRefMoreGo (fuel : Nat) (cs : List Char) : List Char :=
  match fuel, cs with
  | 0, cs => cs
  | f + 1, ',' :: rest =>
    let ws := rest.takeWhile isPySpace
    let r := rest.drop ws.length
    let ds := r.takeWhile isAsciiDigit
    if ds.isEmpty then ',' :: rest else secRefMoreGo f (r.drop ds.length)
  | _ + 1, cs => cs

def secRefAt (cs : List Char) : Option (List Char) :=
  match cs with
  | '§' :: rest =>
    let ws := rest.takeWhile isPySpace
    let r := rest.drop ws.length
    let ds := r.takeWhile isAsciiDigit
    if ds.isEmpty then none else some (secRefMoreGo cs.length (r.drop ds.length))
  | _ => none

/-- `re.sub(r"§\s*\d+(?:,\s*\d+)*", "", s)`: remove every occurrence,
scanning left to right. -/
def stripSecRefs (fuel : Nat) (cs : List Char) : List Char :=
  match fuel, cs with
  | 0, cs => cs
  | _ + 1, [] => []
  | f + 1, c :: rest =>
    match secRefAt (c :: rest) with
    | some rem => stripSecRefs f rem
    | none => c :: stripSecRefs f rest

/-- A braced annotation at the start: the pattern is an opening brace,
one or more non-closing-brace characters, a closing brace. -/
def braceAt (cs : List Char) : Option (List Char) :=
  match cs with
  | c :: rest =>
    if c = lbrace then
      let inner := rest.takeWhile (fun d => d ≠ rbrace)
      if inner.isEmpty then none
      else
        match rest.drop inner.length with
        | d :: tl => if d = rbrace then some tl else none
        | [] => none
    else none
  | [] => none

/-- Removal of every braced annotation, scanning left to right. -/
def stripBraces (fuel : Nat) (cs : List Char) : List Char :=
  match fuel, cs with
  | 0, cs => cs
  | _ + 1, [] => []
  | f + 1, c :: rest =>
    match braceAt (c :: rest) with
    | some rem => stripBraces f rem
    | none => c :: stripBraces f rest

/-- The meaning clean-up at source lines 527-529. -/
def cleanMeaning (m : String) : String :=
  let m1 := pyStrip (String.mk (stripSecRefs m.data.length m.data))
  let m2 := pyStrip (String.mk (stripBraces m1.data.length m1.data))
  pyRstripChars ['.', ',', ';'] m2

/-- `parse_core_dict_entries(lines)` (source lines 472-535). -/
def parse_core_dict_entries (lines : List String) : List DictEntry :=
  let aEnd := alphaEndGo 0 lines
  (lines.drop aEnd).foldl (fun acc line =>
    let s := pyStrip line
    if s = "" then acc
    else if pyStartsWith "·" s || pyStartsWith "—" s then acc
    else if idxMark s then acc
    else
      match entryMatch s.data with
      | some g =>
        let word := pyStrip (String.mk g.1)
        if 4 < (pySplit word).length then acc
        else
          acc ++ [{ croatian := word,
                    english := cleanMeaning (pyStrip (String.mk g.2.2)),
                    part_of_speech := pyStrip (String.mk g.2.1) }]
      | none => acc) []

/-! ## `parse_section_content` -/

structure ContentSection where
  type : String
  text : String
deriving Repr, DecidableEq, Inhabited

structure SectionContent where
  topics : List String
  content_sections : List ContentSection
  vocabulary : List VocabEntry
  example_sentences : List ExamplePair
  tables : List String
  tips : List String
  grammar_notes : List String
  exercises : List Exercise
  regional_notes : List String
deriving Repr, DecidableEq, Inhabited

/-- The mutable accumulation state of the classifier loop. -/
structure PscState where
  content_sections : List ContentSection
  vocabulary : List VocabEntry
  example_sentences : List ExamplePair
  tips : List String
  grammar_notes : List String
  exercises : List Exercise
  regional_notes : List String
  text_buffer : List String
  in_regional : Bool
  regional_buffer : List String
deriving Repr, DecidableEq, Inhabited

def pscInit : PscState :=
  { content_sections := [], vocabulary := [], example_sentences := [], tips := [],
    grammar_notes := [], exercises := [], regional_notes := [], text_buffer := [],
    in_regional := false, regional_buffer := [] }

/-- `flush_text()`. -/
def flushText (st : PscState) : PscState :=
  let text := pyStrip (joinNL st.text_buffer)
  if text ≠ "" then
    { st with content_sections := st.content_sections ++ [⟨"explanation", text⟩],
              text_buffer := [] }
  else { st with text_buffer := [] }

/-- `flush_regional()`. -/
def flushRegional (st : PscState) : PscState :=
  let text := pyStrip (joinNL st.regional_buffer)
  let st' := if text ≠ "" then { st with regional_notes := st.regional_notes ++ [text] } else st
  { st' with regional_buffer := [], in_regional := false }

/-- The classifier scan (source lines 576-665), detectors in source
precedence order.  Every iteration consumes at least one line, so fuel
`lines.length + 1` never reaches the (unreachable) zero case. -/
def pscGo (fuel : Nat) (st : PscState) (ls : List String) : PscState :=
  match fuel, ls with
  | 0, _ => st
  | _ + 1, [] => st
  | f + 1, l :: rest =>
    let s := pyStrip l
    if exerciseMatch s then
      let st1 := flushText st
      let st2 := if st1.in_regional then flushRegional st1 else st1
      let er := parse_exercise_block rest
      pscGo f { st2 with exercises := st2.exercises ++ [er.1] } er.2
    else if spiMatch s then
      let st1 := flushText st
      let st2 := if st1.in_regional then flushRegional st1 else st1
      let sp := spanUntil (fun x =>
        let t := pyStrip x
        exerciseMatch t || separatorMatch t || spiMatch t) rest
      let text := pyStrip (joinNL (sp.1.map pyRstrip))
      let st3 :=
        if text ≠ "" then
          { st2 with content_sections := st2.content_sections ++ [⟨"spi", text⟩] }
        else st2
      pscGo f st3 sp.2
    else if separatorMatch s then
      let st1 := flushText st
      let st2 := if st1.in_regional then flushRegional st1 else st1
      pscGo f { st2 with in_regional := true } rest
    else if tipMatch s then
      let st1 := flushText st
      let st2 := if st1.in_regional then flushRegional st1 else st1
      let tp := spanUntil (fun x =>
        let t := pyStrip x
        t = "" || separatorMatch t || exerciseMatch t) rest
      pscGo f { st2 with tips := st2.tips ++ [joinSpace (s :: tp.1.map pyStrip)] } tp.2
    else if st.in_regional then
      pscGo f { st with regional_buffer := st.regional_buffer ++ [s] } rest
    else
      match parse_example_line l with
      | some ex =>
        let st1 := flushText st
        pscGo f { st1 with example_sentences := st1.example_sentences ++ [ex] } rest
      | none =>
        match parse_vocab_line l with
        | some v =>
          let st1 := flushText st
          pscGo f { st1 with vocabulary := st1.vocabulary ++ [v] } rest
        | none =>
          let st1 :=
            if grammarNoteSearch s then
              { st with grammar_notes := st.grammar_notes ++ [s] }
            else st
          pscGo f { st1 with text_buffer := st1.text_buffer ++ [pyRstrip l] } rest

/-- `parse_section_content(sec)` (source lines 540-684). -/
def parse_section_content (sec : Section) : SectionContent :=
  let lines := strip_footers sec.lines
  let st := pscGo (lines.length + 1) pscInit lines
  let st1 := flushText st
  let st2 := if st1.in_regional then flushRegional st1 else st1
  let allText := joinSpace (st2.content_sections.map (fun cs => cs.text))
  { topics := generate_topics sec.title allText,
    content_sections := st2.content_sections,
    vocabulary := st2.vocabulary,
    example_sentences := st2.example_sentences,
    tables := [],
    tips := st2.tips,
    grammar_notes := st2.grammar_notes,
    exercises := st2.exercises,
    regional_notes := st2.regional_notes }

/-! ## `build_output` -/

structure Metadata where
  title : String
  author : String
  revision : String
  year_range : String
  source : String
deriving Repr, DecidableEq, Inhabited

structure LessonOut where
  id : String
  title : String
  page_start : Option Nat
  topics : List String
  content_sections : List ContentSection
  vocabulary : List VocabEntry
  example_sentences : List ExamplePair
  tables : List String
  tips : List String
  grammar_notes : List String
  exercises : List Exercise
  regional_notes : List String
deriving Repr, DecidableEq, Inhabited

structure AppendixOut where
  id : String
  title : String
  page_start : Option Nat
  content : String
  vocabulary : List VocabEntry
  grammar_notes : List String
deriving Repr, DecidableEq, Inhabited

structure ListOut where
  id : String
  title : String
  page_start : Option Nat
  content : String
  vocabulary : List VocabEntry
deriving Repr, DecidableEq, Inhabited

structure Output where
  metadata : Metadata
  lessons : List LessonOut
  appendices : List AppendixOut
  lists : List ListOut
  core_dictionary : List DictEntry
deriving Repr, DecidableEq, Inhabited

/-- `re.match(r"^A\d$", sid)`. -/
def matchAppendixId (s : String) : Bool :=
  match s.data with
  | ['A', d] => isAsciiDigit d
  | _ => false

/-- `re.match(r"^L\d$", sid)`. -/
def matchListId (s : String) : Bool :=
  match s.data with
  | ['L', d] => isAsciiDigit d
  | _ => false

/-- `^\d{2}$` (the lesson id shape used by the routing invariant). -/
def matchTwoDigitId (s : String) : Bool :=
  match s.data with
  | [a, b] => isAsciiDigit a && isAsciiDigit b
  | _ => false

/-- Python `"\n\n".join`. -/
def joinNN : List String → String
  | [] => ""
  | [s] => s
  | s :: rest => s ++ "\n\n" ++ joinNN rest

/-- The appendix record built at source lines 705-714. -/
def appendixOf (sec : Section) : AppendixOut :=
  let content := parse_section_content sec
  { id := sec.id, title := sec.title, page_start := sec.page_start,
    content := joinNN (content.content_sections.map (fun cs => cs.text)),
    vocabulary := content.vocabulary,
    grammar_notes := content.grammar_notes }

/-- The list record built at source lines 719-727. -/
def listOf (sec : Section) : ListOut :=
  let content := parse_section_content sec
  { id := sec.id, title := sec.title, page_start := sec.page_start,
    content := joinNN (content.content_sections.map (fun cs => cs.text)),
    vocabulary := content.vocabulary }

/-- The lesson record built at source lines 732-745. -/
def lessonOf (sec : Section) : LessonOut :=
  let content := parse_section_content sec
  { id := sec.id, title := sec.title, page_start := sec.page_start,
    topics := content.topics,
    content_sections := content.content_sections,
    vocabulary := content.vocabulary,
    example_sentences := content.example_sentences,
    tables := content.tables,
    tips := content.tips,
    grammar_notes := content.grammar_notes,
    exercises := content.exercises,
    regional_notes := content.regional_notes }

/-- The routing loop of `build_output` (source lines 696-745),
accumulating the four collections in encounter order.  A later CORE
section replaces (not extends) the dictionary, as in the source. -/
def routeSections : List Section →
    List LessonOut × List AppendixOut × List ListOut × List DictEntry →
    List LessonOut × List AppendixOut × List ListOut × List DictEntry
  | [], acc => acc
  | sec :: rest, (lsn, apx, lst, cd) =>
    if sec.id = "CORE" then
      routeSections rest (lsn, apx, lst, parse_core_dict_entries (strip_footers sec.lines))
    else if matchAppendixId sec.id then
      routeSections rest (lsn, apx ++ [appendixOf sec], lst, cd)
    else if matchListId sec.id then
      routeSections rest (lsn, apx, lst ++ [listOf sec], cd)
    else
      routeSections rest (lsn ++ [lessonOf sec], apx, lst, cd)

/-- The sort key `int(x["id"])` (total on the success domain; `build_output`
returns `none` when any key fails to parse, modelling the `ValueError`). -/
def lessonKey (x : LessonOut) : Int := (pyInt? x.id).getD 0

/-- Stable insertion: the new element goes after every element with a
key less than or equal to its own. -/
def insertLesson (x : LessonOut) : List LessonOut → List LessonOut
  | [] => [x]
  | y :: ys => if lessonKey y ≤ lessonKey x then y :: insertLesson x ys else x :: y :: ys

/-- `lessons.sort(key=lambda x: int(x["id"]))`: Python's sort is a stable
ascending sort, and a stable sort with respect to a total preorder is
extensionally unique, so this left fold of stable insertions computes it. -/
def sortLessons (l : List LessonOut) : List LessonOut :=
  l.foldl (fun acc x => insertLesson x acc) []

def fixedMetadata : Metadata :=
  { title := "Easy Croatian", author := "Daniel N.", revision := "47b",
    year_range := "2009-2019", source := "easy-croatian.com" }

/-- `build_output(sections, toc)` (source lines 689-762; the `toc`
parameter is unused by the source body as well).  `none` models the
`ValueError` raised by `int` inside the sort when a lesson id is not an
integer literal. -/
def build_output (sections : List Section) (_toc : Toc) : Option Output :=
  let r := routeSections sections ([], [], [], [])
  if r.1.all (fun x => (pyInt? x.id).isSome) then
    some { metadata := fixedMetadata, lessons := sortLessons r.1,
           appendices := r.2.1, lists := r.2.2.1, core_dictionary := r.2.2.2 }
  else none

/-! ## Reference definitions used by the claim statements -/

/-- Key membership in the TOC mapping. -/
def dictMem (toc : Toc) (k : String) : Bool := (dictFind? toc k).isSome

/-- The body-line selection that `split_into_sections` distributes over
its sections: walk the same suffix with the same header test, keep the
lines that fall after the first recognised header and are not headers
themselves (each right-stripped of newlines, as stored by the splitter),
in input order. -/
def bodyGo (toc : Toc) : List String → List String → Bool → List String
  | [], _, _ => []
  | l :: rest, win, seen =>
    if (is_known_header toc (pyStrip l) win).isSome then
      bodyGo toc rest (pushWin win l) true
    else if seen then rstripNL l :: bodyGo toc rest (pushWin win l) seen
    else bodyGo toc rest (pushWin win l) seen

def bodyLines (raw : List String) (toc : Toc) : List String :=
  let cs := contentStart raw
  bodyGo toc (raw.drop cs) ((raw.take cs).drop (cs - 5)) false

/-- The sections routed to `appendices`, in encounter order. -/
def appendicesRouted (secs : List Section) : List AppendixOut :=
  (secs.filter (fun s => decide (s.id ≠ "CORE") && matchAppendixId s.id)).map appendixOf

/-- The sections routed to `lists`, in encounter order. -/
def listsRouted (secs : List Section) : List ListOut :=
  (secs.filter (fun s =>
    decide (s.id ≠ "CORE") && !matchAppendixId s.id && matchListId s.id)).map listOf

/-- The sections routed to `lessons` (before sorting), in encounter order. -/
def lessonsRouted (secs : List Section) : List LessonOut :=
  (secs.filter (fun s =>
    decide (s.id ≠ "CORE") && !matchAppendixId s.id && !matchListId s.id)).map lessonOf

/-- Strictly ascending numeric lesson ids on adjacent records. -/
def lessonsStrictAscBool : List LessonOut → Bool
  | x :: y :: rest => decide (lessonKey x < lessonKey y) && lessonsStrictAscBool (y :: rest)
  | _ => true

/-- The id-shape hypothesis of the routing claim: every section id has
one of the four TOC shapes. -/
def sectionIdShaped (s : String) : Bool :=
  decide (s = "CORE") || matchTwoDigitId s || matchAppendixId s || matchListId s
/-! ### Concrete inputs used by counterexamples and witnesses -/

/-- The input and TOC of the counterexample to C2: the TOC has no CORE
entry, and the body contains a line matching the literal
"Core Dictionary" pattern after the content start. -/
def c2Raw : List String :=
  ["Introduction", "Introduction", "01 Greetings", "Core Dictionary", "entry"]

def c2Toc : Toc := [("01", ⟨"Greetings", none⟩)]

/-- Sections exercising the sort and routing of `build_output`. -/
def w3secs : List Section :=
  [⟨"02", "B", none, []⟩, ⟨"01", "A", none, []⟩, ⟨"A1", "C", none, []⟩]

def w3out : Output := (build_output w3secs tocEmpty).getD default

/-- Sections whose ids all have one of the four TOC shapes. -/
def w4secs : List Section :=
  [⟨"01", "T", none, []⟩, ⟨"A1", "U", none, []⟩, ⟨"L2", "V", none, []⟩]

def w4out : Output := (build_output w4secs tocEmpty).getD default

/-! ### Footer stripper lemmas -/

theorem afterFooter_sublist (ls : List String) : (afterFooter ls).Sublist ls := by
  have h : (ls.dropWhile (fun l => pyStrip l = "")).Sublist ls :=
    List.dropWhile_sublist _
  unfold afterFooter
  cases hrest : ls.dropWhile (fun l => pyStrip l = "") with
  | nil => simp
  | cons l tl =>
    rw [hrest] at h
    by_cases hp : pageLineMatch (pyStrip l)
    · simp only [hp, if_true]
      exact List.Sublist.trans (List.sublist_cons_self l tl) h
    · simp only [hp, if_false]
      exact h

theorem afterFooter_length_le (ls : List String) : (afterFooter ls).length ≤ ls.length :=
  (afterFooter_sublist ls).length_le

theorem stripFootersGo_fuel (fuel : Nat) : ∀ (fuel' : Nat) (ls : List String),
    ls.length < fuel → ls.length < fuel' →
    stripFootersGo fuel ls = stripFootersGo fuel' ls := by
  induction fuel with
  | zero => intro fuel' ls h h'; omega
  | succ f ih =>
    intro fuel' ls h h'
    match fuel', ls with
    | 0, ls => omega
    | f' + 1, [] => rfl
    | f' + 1, l :: rest =>
      simp only [stripFootersGo]
      by_cases hf : footerSectionMatch (pyStrip l)
      · simp only [hf, if_true]
        have hle := afterFooter_length_le rest
        simp only [List.length_cons] at h h'
        exact ih f' (afterFooter rest) (by omega) (by omega)
      · simp only [hf, Bool.false_eq_true, if_false]
        simp only [List.length_cons] at h h'
        rw [ih f' rest (by omega) (by omega)]

/-- Every line surviving `strip_footers` fails the footer pattern. -/
theorem stripFootersGo_no_footer (fuel : Nat) : ∀ (ls : List String),
    ls.length < fuel →
    ∀ x ∈ stripFootersGo fuel ls, footerSectionMatch (pyStrip x) = false := by
  induction fuel with
  | zero => intro ls h; omega
  | succ f ih =>
    intro ls h
    match ls with
    | [] => intro x hx; simp [stripFootersGo] at hx
    | l :: rest =>
      simp only [stripFootersGo]
      simp only [List.length_cons] at h
      by_cases hf : footerSectionMatch (pyStrip l)
      · simp only [hf, if_true]
        have hle := afterFooter_length_le rest
        exact ih (afterFooter rest) (by omega)
      · simp only [hf, Bool.false_eq_true, if_false]
        intro x hx
        rcases List.mem_cons.mp hx with hx | hx
        · subst hx
          exact Bool.eq_false_iff.mpr hf
        · exact ih rest (by omega) x hx

/-- On a footer-free input `strip_footers` is the identity. -/
theorem stripFootersGo_id (fuel : Nat) : ∀ (ls : List String),
    ls.length < fuel →
    (∀ x ∈ ls, footerSectionMatch (pyStrip x) = false) →
    stripFootersGo fuel ls = ls := by
  induction fuel with
  | zero => intro ls h; omega
  | succ f ih =>
    intro ls h hnf
    match ls with
    | [] => rfl
    | l :: rest =>
      simp only [stripFootersGo]
      simp only [List.length_cons] at h
      have hl : footerSectionMatch (pyStrip l) = false := hnf l (by simp)
      simp only [hl, Bool.false_eq_true, if_false]
      rw [ih rest (by omega) (fun x hx => hnf x (List.mem_cons_of_mem l hx))]

/-- The output of `strip_footers` is a sublist of the input. -/
theorem stripFootersGo_sublist (fuel : Nat) : ∀ (ls : List String),
    ls.length < fuel →
    (stripFootersGo fuel ls).Sublist ls := by
  induction fuel with
  | zero => intro ls h; omega
  | succ f ih =>
    intro ls h
    match ls with
    | [] => simp [stripFootersGo]
    | l :: rest =>
      simp only [stripFootersGo]
      simp only [List.length_cons] at h
      by_cases hf : footerSectionMatch (pyStrip l)
      · simp only [hf, if_true]
        have hle := afterFooter_length_le rest
        apply List.Sublist.trans (ih (afterFooter rest) (by omega))
        exact List.Sublist.trans (afterFooter_sublist rest) (List.sublist_cons_self l rest)
      · simp only [hf, Bool.false_eq_true, if_false]
        exact List.Sublist.cons₂ l (ih rest (by omega))


/-! ## Claim C5 and C10: the Footer Stripper contract -/

/-- C5: `strip_footers` removes exactly the footer occurrences (footer
line, blank run, optional page counter) and keeps the other lines
unchanged in order: on the documented example it yields
`["Some content", "More content"]`; an input with no footer line is
returned unchanged; the output is always a sublist (order-preserving
selection) of the input; and no footer line survives to the output. -/
theorem claim_C5_strip_footers :
    strip_footers ["Some content", "Easy Croa!an (rev. 47b) / Lesson One", "", "9 / 600",
        "More content"] = ["Some content", "More content"] ∧
    (∀ ls : List String, (∀ l ∈ ls, footerSectionMatch (pyStrip l) = false) →
      strip_footers ls = ls) ∧
    (∀ ls : List String, (strip_footers ls).Sublist ls) ∧
    (∀ ls : List String, ∀ l ∈ strip_footers ls, footerSectionMatch (pyStrip l) = false) := by
  refine ⟨by decide, ?_, ?_, ?_⟩
  · intro ls h
    exact stripFootersGo_id (ls.length + 1) ls (by omega) h
  · intro ls
    exact stripFootersGo_sublist (ls.length + 1) ls (by omega)
  · intro ls l hl
    exact stripFootersGo_no_footer (ls.length + 1) ls (by omega) l hl

/-- Witness for C5: the no-footer clause applied to a concrete input. -/
theorem claim_C5_witness :
    strip_footers ["Some content", "More content"] = ["Some content", "More content"] :=
  claim_C5_strip_footers.2.1 ["Some content", "More content"] (by decide)

/-- C10: `strip_footers` is idempotent — every footer-pattern line is
removed on the first pass, so a second pass is the identity. -/
theorem claim_C10_idempotent (ls : List String) :
    strip_footers (strip_footers ls) = strip_footers ls := by
  unfold strip_footers
  apply stripFootersGo_id
  · omega
  · intro x hx
    exact stripFootersGo_no_footer (ls.length + 1) ls (by omega) x hx

/-! ## Claim C9: the Section Splitter partitions the body lines -/

theorem splitGo_flatMap (toc : Toc) : ∀ (rest win : List String) (cur : Option Section)
    (acc : List Section),
    (splitGo toc rest win cur acc).flatMap (fun s => s.lines) =
      acc.flatMap (fun s => s.lines) ++
        (match cur with | some c => c.lines | none => []) ++
        bodyGo toc rest win cur.isSome := by
  intro rest
  induction rest with
  | nil =>
    intro win cur acc
    cases cur with
    | none => simp [splitGo, bodyGo]
    | some c => simp [splitGo, bodyGo]
  | cons l rest ih =>
    intro win cur acc
    cases hh : is_known_header toc (pyStrip l) win with
    | some h =>
      simp only [splitGo, bodyGo, hh, Option.isSome_some]
      rw [ih]
      cases cur with
      | none => simp
      | some c => simp
    | none =>
      cases cur with
      | none =>
        simp only [splitGo, bodyGo, hh, Option.isSome_none]
        rw [ih]
        simp
      | some c =>
        simp only [splitGo, bodyGo, hh, Option.isSome_some]
        rw [ih]
        simp

/-- C9: the section line blocks produced by `split_into_sections`
partition the processed suffix of the input: their concatenation equals,
in order, exactly those input lines from the content start onward that
are not recognised headers and lie after the first recognised header
(so every line lands in at most one block, and a line in no block is
before the content start, before the first header, or a header). -/
theorem claim_C9_partition (raw : List String) (toc : Toc) :
    (split_into_sections raw toc).flatMap (fun s => s.lines) = bodyLines raw toc := by
  unfold split_into_sections bodyLines
  rw [splitGo_flatMap]
  simp

/-! ## Claim C2: section ids and the TOC mapping -/

theorem headerTry_mem (toc : Toc) (m : Option (String × String))
    (r : String × String × Option Nat) (h : headerTry toc m = some r) :
    dictMem toc r.1 = true := by
  cases m with
  | none => simp [headerTry] at h
  | some p =>
    obtain ⟨sid, ct⟩ := p
    simp only [headerTry] at h
    split at h
    · rename_i info heq
      split at h
      · injection h with h'
        subst h'
        simp [dictMem, heq]
      · simp at h
    · simp at h

theorem headerPatterns_mem (toc : Toc) (s : String) (r : String × String × Option Nat)
    (h : headerPatterns toc s = some r) : dictMem toc r.1 = true := by
  simp only [headerPatterns] at h
  cases h1 : headerTry toc (lessonIdMatch s) with
  | some x =>
    rw [h1] at h
    injection h with h'
    subst h'
    exact headerTry_mem toc _ _ h1
  | none =>
    rw [h1] at h
    simp only at h
    cases h2 : headerTry toc (appendixIdMatch s) with
    | some x =>
      rw [h2] at h
      injection h with h'
      subst h'
      exact headerTry_mem toc _ _ h2
    | none =>
      rw [h2] at h
      simp only at h
      cases h3 : headerTry toc (listIdMatch s) with
      | some x =>
        rw [h3] at h
        injection h with h'
        subst h'
        exact headerTry_mem toc _ _ h3
      | none =>
        rw [h3] at h
        simp only at h
        split at h
        · split at h
          · rename_i info heq
            injection h with h'
            subst h'
            simp [dictMem, heq]
          · simp at h
        · simp at h

theorem is_known_header_mem (toc : Toc) (s : String) (win : List String)
    (r : String × String × Option Nat) (h : is_known_header toc s win = some r) :
    dictMem toc r.1 = true := by
  simp only [is_known_header] at h
  cases hp : ((win.reverse.take 5).map pyStrip).find? (fun p => p ≠ "") with
  | none =>
    rw [hp] at h
    exact headerPatterns_mem toc s r h
  | some p =>
    rw [hp] at h
    simp only at h
    split at h
    · simp at h
    · exact headerPatterns_mem toc s r h

theorem splitGo_mem_toc (toc : Toc) : ∀ (rest win : List String) (cur : Option Section)
    (acc : List Section),
    (∀ s ∈ acc, dictMem toc s.id = true) →
    (∀ c, cur = some c → dictMem toc c.id = true) →
    ∀ s ∈ splitGo toc rest win cur acc, dictMem toc s.id = true := by
  intro rest
  induction rest with
  | nil =>
    intro win cur acc hacc hcur s hs
    simp only [splitGo] at hs
    rcases List.mem_append.mp hs with hs | hs
    · exact hacc s hs
    · cases cur with
      | none => simp at hs
      | some c =>
        simp only [Option.toList] at hs
        rcases List.mem_singleton.mp hs with rfl
        exact hcur s rfl
  | cons l rest ih =>
    intro win cur acc hacc hcur s hs
    simp only [splitGo] at hs
    cases hh : is_known_header toc (pyStrip l) win with
    | some h =>
      rw [hh] at hs
      refine ih (pushWin win l) _ _ ?_ ?_ s hs
      · intro t ht
        rcases List.mem_append.mp ht with ht | ht
        · exact hacc t ht
        · cases cur with
          | none => simp at ht
          | some c =>
            simp only [Option.toList] at ht
            rcases List.mem_singleton.mp ht with rfl
            exact hcur t rfl
      · intro c hc
        cases hc
        exact is_known_header_mem toc (pyStrip l) win h hh
    | none =>
      rw [hh] at hs
      cases cur with
      | some c =>
        refine ih (pushWin win l) _ _ hacc ?_ s hs
        intro c' hc'
        cases hc'
        exact hcur c rfl
      | none =>
        exact ih (pushWin win l) _ _ hacc (fun c hc => by cases hc) s hs

theorem claim_C2_cex :
    coreDictMatch "Core Dictionary" = true ∧
    dictMem c2Toc "CORE" = false ∧
    split_into_sections c2Raw c2Toc =
      [{ id := "01", title := "Greetings", page_start := none,
         lines := ["Core Dictionary", "entry"] }] := by
  refine ⟨rfl, rfl, ?_⟩
  decide

theorem claim_C2_amended (raw : List String) (toc : Toc) :
    ∀ s ∈ split_into_sections raw toc, dictMem toc s.id = true := by
  intro s hs
  unfold split_into_sections at hs
  exact splitGo_mem_toc toc _ _ none [] (fun t ht => by simp at ht)
    (fun c hc => by cases hc) s hs

theorem claim_C2_witness :
    dictMem [("01", ⟨"Greetings", none⟩)] "01" = true :=
  claim_C2_amended ["Introduction", "Introduction", "01 Greetings", "body"]
    [("01", ⟨"Greetings", none⟩)]
    { id := "01", title := "Greetings", page_start := none, lines := ["body"] }
    (by decide)

/-! ## Claim C6: missing table of contents -/

theorem findContents_none (lines : List String)
    (h : ∀ l ∈ lines, pyStrip l ≠ "Contents") : findContents lines = none := by
  induction lines with
  | nil => rfl
  | cons l rest ih =>
    simp only [findContents]
    rw [if_neg (h l (by simp)), ih (fun x hx => h x (List.mem_cons_of_mem l hx))]
    rfl

theorem headerTry_empty (m : Option (String × String)) : headerTry tocEmpty m = none := by
  cases m with
  | none => rfl
  | some p => obtain ⟨sid, ct⟩ := p; rfl

theorem headerPatterns_empty (s : String) : headerPatterns tocEmpty s = none := by
  simp only [headerPatterns, headerTry_empty]
  split
  · rfl
  · rfl

theorem is_known_header_empty (s : String) (win : List String) :
    is_known_header tocEmpty s win = none := by
  simp only [is_known_header]
  split
  · split
    · rfl
    · exact headerPatterns_empty s
  · exact headerPatterns_empty s

theorem splitGo_empty_toc : ∀ (rest win : List String),
    splitGo tocEmpty rest win none [] = [] := by
  intro rest
  induction rest with
  | nil => intro win; rfl
  | cons l rest ih =>
    intro win
    simp only [splitGo, is_known_header_empty]
    exact ih (pushWin win l)

/-- C6: a raw line sequence with no table-of-contents marker yields the
empty TOC mapping from `parse_toc`, and `split_into_sections` with that
empty mapping returns zero sections rather than failing. -/
theorem claim_C6_missing_toc (lines : List String)
    (h : ∀ l ∈ lines, pyStrip l ≠ "Contents") :
    parse_toc lines = tocEmpty ∧
    split_into_sections lines (parse_toc lines) = [] := by
  have hc : findContents lines = none := findContents_none lines h
  have ht : parse_toc lines = tocEmpty := by
    unfold parse_toc
    rw [hc]
  refine ⟨ht, ?_⟩
  rw [ht]
  unfold split_into_sections
  exact splitGo_empty_toc _ _

/-- Witness for C6 at a concrete marker-free input. -/
theorem claim_C6_witness :
    parse_toc ["Hello", "World"] = tocEmpty ∧
    split_into_sections ["Hello", "World"] (parse_toc ["Hello", "World"]) = [] :=
  claim_C6_missing_toc ["Hello", "World"] (by decide)

/-! ## Claim C7: concrete vocabulary examples -/

/-- C7: `parse_vocab_line` maps "čitati read" to the entry with empty
notes and verb tag, and "ležati (leži) lie down ®" to the entry whose
parenthetical is moved into notes, whose regional marker is stripped
from the gloss into notes, and which is tagged as a verb. -/
theorem claim_C7_vocab_examples :
    parse_vocab_line "čitati read" =
      some { croatian := "čitati", english := "read", notes := "", type := "verb" } ∧
    parse_vocab_line "ležati (leži) lie down ®" =
      some { croatian := "ležati", english := "lie down", notes := "(leži) ®",
             type := "verb" } := by
  constructor
  · decide
  · decide

/-! ## Claim C8: the example-sentence acceptance conditions -/

/-- C8: `parse_example_line` accepts a line only if the first part minus
trailing punctuation has at least 5 characters, both parts are at most
150 characters, the first part has a diacritic or a capitalized word,
and the first part does not start with a common English function word;
and it maps "Ana čita. Ana is reading." to exactly that pair. -/
theorem claim_C8_example_acceptance :
    (∀ (line : String) (e : ExamplePair), parse_example_line line = some e →
      5 ≤ (pyRstripChars ['.', '!', '?'] e.croatian).length ∧
      e.croatian.length ≤ 150 ∧ e.english.length ≤ 150 ∧
      (has_diacritic e.croatian || capWordSearch e.croatian) = true ∧
      exampleEnglishStart e.croatian = false) ∧
    parse_example_line "Ana čita. Ana is reading." =
      some { croatian := "Ana čita.", english := "Ana is reading." } := by
  constructor
  · intro line e h
    simp only [parse_example_line] at h
    split at h
    · simp at h
    · split at h
      · simp at h
      · split at h
        · simp at h
        · rename_i g1 g2 hg
          split at h
          · simp at h
          · split at h
            · simp at h
            · split at h
              · simp at h
              · split at h
                · simp at h
                · rename_i h5 h150 hcap heng
                  injection h with h'
                  subst h'
                  dsimp only
                  simp only [not_lt] at h5
                  simp at h150
                  refine ⟨h5, by omega, by omega, ?_, ?_⟩
                  · by_contra hc
                    simp only [Bool.not_eq_true] at hc
                    rw [hc] at hcap
                    simp at hcap
                  · by_contra hc
                    simp only [Bool.not_eq_false] at hc
                    exact heng hc
  · decide

/-- Witness for C8: the acceptance conditions hold of the documented
concrete pair, obtained by applying the theorem at that input. -/
theorem claim_C8_witness :
    5 ≤ (pyRstripChars ['.', '!', '?'] "Ana čita.").length ∧
    ("Ana čita." : String).length ≤ 150 ∧ ("Ana is reading." : String).length ≤ 150 ∧
    (has_diacritic "Ana čita." || capWordSearch "Ana čita.") = true ∧
    exampleEnglishStart "Ana čita." = false :=
  claim_C8_example_acceptance.1 "Ana čita. Ana is reading."
    { croatian := "Ana čita.", english := "Ana is reading." } (by decide)

/-! ## Claim C1: the Croatian-look guard and the output croatian field -/

theorem vocabClassC_paren (c : Char) (h : vocabClassC c = true) : c ≠ '(' ∧ c ≠ ')' := by
  refine ⟨?_, ?_⟩ <;> intro hc <;> subst hc <;> revert h <;> decide

theorem infLetter_paren (c : Char) (h : infLetter c = true) : c ≠ '(' ∧ c ≠ ')' := by
  refine ⟨?_, ?_⟩ <;> intro hc <;> subst hc <;> revert h <;> decide

theorem parenAt_shape (cs p rest' : List Char) (h : parenAt cs = some (p, rest')) :
    ∃ inner, p = '(' :: (inner ++ [')']) ∧ inner ≠ [] ∧ ∀ c ∈ inner, c ≠ ')' := by
  unfold parenAt at h
  split at h
  · rename_i rest
    simp only [] at h
    split at h
    · simp at h
    · rename_i hne
      split at h
      · rename_i tl heq
        injection h with h'
        injection h' with h1 h2
        refine ⟨rest.takeWhile (fun c => c ≠ ')'), ?_, ?_, ?_⟩
        · rw [← h1]
        · simpa using hne
        · intro c hc
          have := List.mem_takeWhile_imp hc
          simpa using this
      · simp at h
  · simp at h

theorem vocabAfterCore_shape (g1core rest g1 g2 : List Char)
    (h : vocabAfterCore g1core rest = some (g1, g2)) :
    g1 = g1core ∨ ∃ p rest', parenAt rest = some (p, rest') ∧ g1 = g1core ++ p := by
  unfold vocabAfterCore at h
  split at h
  · rename_i p rest' hp
    split at h
    · injection h with h'
      injection h' with h1 h2
      right
      exact ⟨p, rest', hp, h1.symm⟩
    · split at h
      · injection h with h'
        injection h' with h1 h2
        left
        exact h1.symm
      · simp at h
  · split at h
    · injection h with h'
      injection h' with h1 h2
      left
      exact h1.symm
    · simp at h

theorem vocabLoop_shape : ∀ (rest g1core : List Char) (k : Nat) (g1 g2 : List Char),
    (∀ c ∈ g1core, c ≠ '(' ∧ c ≠ ')') →
    vocabLoop g1core rest k = some (g1, g2) →
    (∀ c ∈ g1, c ≠ '(' ∧ c ≠ ')') ∨
      ∃ core inner, g1 = core ++ '(' :: (inner ++ [')']) ∧ inner ≠ [] ∧
        ∀ c ∈ inner, c ≠ ')' := by
  intro rest
  induction rest with
  | nil =>
    intro g1core k g1 g2 hfree h
    simp only [vocabLoop] at h
    simp at h
  | cons c rest ih =>
    intro g1core k g1 g2 hfree h
    simp only [vocabLoop] at h
    split at h
    · rename_i res hac
      injection h with h'
      subst h'
      rcases vocabAfterCore_shape g1core (c :: rest) g1 g2 hac with h1 | ⟨p, rest', hp, h1⟩
      · subst h1
        exact Or.inl hfree
      · rcases parenAt_shape (c :: rest) p rest' hp with ⟨inner, hpp, hin, hinn⟩
        subst hpp
        subst h1
        exact Or.inr ⟨g1core, inner, rfl, hin, hinn⟩
    · split at h
      · rename_i hcls
        rcases (by simpa using hcls : k < 50 ∧ vocabClassC c = true) with ⟨_, hc⟩
        refine ih (g1core ++ [c]) (k + 1) g1 g2 ?_ h
        intro d hd
        rcases List.mem_append.mp hd with hd | hd
        · exact hfree d hd
        · rcases List.mem_singleton.mp hd with rfl
          exact vocabClassC_paren d hc
      · simp at h

theorem vocabMatch_shape (cs g1 g2 : List Char) (h : vocabMatch cs = some (g1, g2)) :
    (∀ c ∈ g1, c ≠ '(' ∧ c ≠ ')') ∨
      ∃ core inner, g1 = core ++ '(' :: (inner ++ [')']) ∧ inner ≠ [] ∧
        ∀ c ∈ inner, c ≠ ')' := by
  unfold vocabMatch at h
  split at h
  · rename_i c rest
    split at h
    · rename_i hc
      refine vocabLoop_shape rest [c] 0 g1 g2 ?_ h
      intro d hd
      rcases List.mem_singleton.mp hd with rfl
      exact infLetter_paren d hc
    · simp at h
  · simp at h

theorem dropWhile_of_all_not {p : Char → Bool} : ∀ (l : List Char),
    (∀ c ∈ l, p c = false) → l.dropWhile p = l := by
  intro l h
  cases l with
  | nil => rfl
  | cons c r =>
    rw [List.dropWhile_cons, if_neg]
    rw [h c (by simp)]
    simp

theorem dropWhileEnd_of_all_not {p : Char → Bool} (l : List Char)
    (h : ∀ c ∈ l, p c = false) : dropWhileEnd p l = l := by
  unfold dropWhileEnd
  rw [dropWhile_of_all_not l.reverse (fun c hc => h c (List.mem_reverse.mp hc))]
  exact List.reverse_reverse l

theorem mem_pyStripL (c : Char) (l : List Char) (h : c ∈ pyStripL l) : c ∈ l := by
  unfold pyStripL dropWhileEnd at h
  have h1 : c ∈ (l.dropWhile isPySpace).reverse.dropWhile isPySpace :=
    List.mem_reverse.mp h
  have h2 : c ∈ (l.dropWhile isPySpace).reverse :=
    (List.dropWhile_sublist isPySpace).mem h1
  have h3 : c ∈ l.dropWhile isPySpace := List.mem_reverse.mp h2
  exact (List.dropWhile_sublist isPySpace).mem h3

theorem mem_pySplitGo (c : Char) : ∀ (l cur : List Char) (t : List Char),
    t ∈ pySplitGo cur l → c ∈ t → c ∈ cur ∨ c ∈ l := by
  intro l
  induction l with
  | nil =>
    intro cur t ht hc
    simp only [pySplitGo] at ht
    split at ht
    · simp at ht
    · rcases List.mem_singleton.mp ht with rfl
      exact Or.inl (List.mem_reverse.mp hc)
  | cons d rest ih =>
    intro cur t ht hc
    simp only [pySplitGo] at ht
    split at ht
    · split at ht
      · rcases ih [] t ht hc with h | h
        · simp at h
        · exact Or.inr (List.mem_cons_of_mem d h)
      · rcases List.mem_cons.mp ht with rfl | ht
        · exact Or.inl (List.mem_reverse.mp hc)
        · rcases ih [] t ht hc with h | h
          · simp at h
          · exact Or.inr (List.mem_cons_of_mem d h)
    · rcases ih (d :: cur) t ht hc with h | h
      · rcases List.mem_cons.mp h with rfl | h
        · exact Or.inr (List.mem_cons_self c rest)
        · exact Or.inl h
      · exact Or.inr (List.mem_cons_of_mem d h)

/-- The characters of the first whitespace-separated token of a string
are characters of the string. -/
theorem mem_firstToken (s : String) (c : Char) (h : c ∈ ((pySplit s).headD "").data) :
    c ∈ s.data := by
  unfold pySplit pySplitL at h
  cases hg : pySplitGo [] s.data with
  | nil => rw [hg] at h; simp at h
  | cons t ts =>
    rw [hg] at h
    simp only [List.map_cons, List.headD_cons] at h
    have ht : t ∈ pySplitGo [] s.data := by rw [hg]; exact List.mem_cons_self t ts
    rcases mem_pySplitGo c s.data [] t ht h with h1 | h1
    · simp at h1
    · exact h1

theorem parenSearch_head : ∀ (cs pre p : List Char),
    parenSearch cs = some (pre, p) → ∃ tl, p = '(' :: tl := by
  intro cs
  induction cs with
  | nil => intro pre p h; simp [parenSearch] at h
  | cons c rest ih =>
    intro pre p h
    simp only [parenSearch] at h
    split at h
    · rename_i q rest' hq
      injection h with h'
      injection h' with h1 h2
      rcases parenAt_shape (c :: rest) q rest' hq with ⟨inner, hqq, _, _⟩
      exact ⟨inner ++ [')'], by rw [← h2, hqq]⟩
    · split at h
      · rename_i pre' p' hps
        injection h with h'
        injection h' with h1 h2
        rcases ih pre' p' hps with ⟨tl, htl⟩
        exact ⟨tl, by rw [← h2, htl]⟩
      · simp at h

theorem takeWhile_append_all {p : Char → Bool} : ∀ (a b : List Char),
    (∀ c ∈ a, p c = true) → (a ++ b).takeWhile p = a ++ b.takeWhile p := by
  intro a
  induction a with
  | nil => intro b h; simp
  | cons c a' ih =>
    intro b h
    rw [List.cons_append, List.takeWhile_cons, if_pos]
    · rw [ih b (fun d hd => h d (List.mem_cons_of_mem c hd))]
      rfl
    · rw [h c (by simp)]

theorem parenSearch_isSome : ∀ (pre inner : List Char), inner ≠ [] →
    (∀ c ∈ inner, c ≠ ')') →
    (parenSearch (pre ++ '(' :: (inner ++ [')']))).isSome = true := by
  intro pre
  induction pre with
  | nil =>
    intro inner hne hinn
    simp only [List.nil_append, parenSearch]
    have hat : parenAt ('(' :: (inner ++ [')'])) =
        some ('(' :: (inner ++ [')']), []) := by
      unfold parenAt
      simp only []
      have htw : (inner ++ [')']).takeWhile (fun c => c ≠ ')') = inner := by
        rw [takeWhile_append_all inner [')']
          (fun c hc => by simpa using hinn c hc)]
        simp
      rw [htw]
      rw [if_neg (by simpa using hne)]
      rw [List.drop_left inner [')']]
      rfl
    rw [hat]
    rfl
  | cons c pre' ih =>
    intro inner hne hinn
    rw [List.cons_append]
    simp only [parenSearch]
    split
    · rfl
    · have hs := ih inner hne hinn
      cases hps : parenSearch (pre' ++ '(' :: (inner ++ [')'])) with
      | none => rw [hps] at hs; simp at hs
      | some r =>
        obtain ⟨a, b⟩ := r
        rfl

theorem dropWhile_append_cons {p : Char → Bool} : ∀ (l : List Char) (x : Char)
    (B : List Char), p x = false →
    ∃ A, (l ++ x :: B).dropWhile p = A ++ x :: B := by
  intro l
  induction l with
  | nil =>
    intro x B hx
    refine ⟨[], ?_⟩
    rw [List.nil_append, List.dropWhile_cons, if_neg (by simp [hx])]
  | cons a l' ih =>
    intro x B hx
    rw [List.cons_append, List.dropWhile_cons]
    by_cases ha : p a = true
    · rw [if_pos ha]
      exact ih x B hx
    · rw [if_neg ha]
      exact ⟨a :: l', by simp⟩

theorem dropWhileEnd_append_last {p : Char → Bool} (l : List Char) (x : Char)
    (hx : p x = false) : dropWhileEnd p (l ++ [x]) = l ++ [x] := by
  unfold dropWhileEnd
  rw [List.reverse_append]
  simp only [List.reverse_cons, List.reverse_nil, List.nil_append, List.singleton_append]
  rw [List.dropWhile_cons, if_neg (by simp [hx])]
  simp

theorem pyStripL_append_paren (core inner : List Char) :
    ∃ A, pyStripL (core ++ '(' :: (inner ++ [')'])) = A ++ '(' :: (inner ++ [')']) := by
  unfold pyStripL
  rcases dropWhile_append_cons core '(' (inner ++ [')'])
    (by decide : isPySpace '(' = false) with ⟨A, hA⟩
  rw [hA]
  refine ⟨A, ?_⟩
  have hassoc : A ++ '(' :: (inner ++ [')']) = (A ++ '(' :: inner) ++ [')'] := by
    simp
  rw [hassoc, dropWhileEnd_append_last _ _ (by decide : isPySpace ')' = false)]

theorem joinSpace_head_contains (a : String) (r : List String) (c : Char)
    (hc : c ∈ a.data) (hne : a ≠ "") :
    strContainsChar (joinSpace ((a :: r).filter (fun s => s ≠ ""))) c = true := by
  have hfc : (a :: r).filter (fun s => s ≠ "") = a :: r.filter (fun s => s ≠ "") := by
    simp [hne]
  rw [hfc]
  cases hr : r.filter (fun s => s ≠ "") with
  | nil =>
    show strContainsChar (joinSpace [a]) c = true
    unfold joinSpace strContainsChar
    simpa using hc
  | cons x xs =>
    show strContainsChar (joinSpace (a :: x :: xs)) c = true
    show strContainsChar (a ++ " " ++ joinSpace (x :: xs)) c = true
    unfold strContainsChar
    rw [String.data_append, String.data_append]
    simp [hc]

/-- C1 amended: if `parse_vocab_line` returns an entry whose notes contain
no parenthetical (no "(" character), then the first whitespace-separated
token of the output `croatian` field contains a Croatian diacritic or
matches the fixed infinitive-suffix pattern.  (When a parenthetical was
extracted the guard applied to the raw term before the extraction, and
the output field may fail the check — see the counterexample.) -/
theorem claim_C1_amended (line : String) (e : VocabEntry)
    (h : parse_vocab_line line = some e)
    (hp : strContainsChar e.notes '(' = false) :
    looks_croatian ((pySplit e.croatian).headD "") = true := by
  simp only [parse_vocab_line] at h
  split at h
  · simp at h
  · split at h
    · simp at h
    · split at h
      · simp at h
      · rename_i g1 g2 hmatch
        split at h
        · simp at h
        · rename_i hlooksneg
          split at h
          · simp at h
          · rename_i hengcont
            cases hps : parenSearch (pyStrip (String.mk g1)).data with
            | some pr =>
              obtain ⟨pre, p⟩ := pr
              rw [hps] at h
              dsimp only at h
              injection h with h'
              subst h'
              dsimp only at hp
              rcases parenSearch_head _ _ _ hps with ⟨tl, htl⟩
              have hmem : '(' ∈ (String.mk p).data := by
                rw [htl]
                exact List.mem_cons_self '(' tl
              have hne : String.mk p ≠ "" := by
                intro heq
                have := congrArg String.data heq
                rw [htl] at this
                simp at this
              rw [joinSpace_head_contains (String.mk p) _ '(' hmem hne] at hp
              simp at hp
            | none =>
              rw [hps] at h
              dsimp only at h
              injection h with h'
              subst h'
              dsimp only at hp ⊢
              rcases vocabMatch_shape _ _ _ hmatch with hfree | ⟨core, inner, hg1, hin, hinn⟩
              · have hrs : pyRstripChars ['(', ')']
                    ((pySplit (pyStrip (String.mk g1))).headD "") =
                    (pySplit (pyStrip (String.mk g1))).headD "" := by
                  unfold pyRstripChars
                  rw [dropWhileEnd_of_all_not _ ?_]
                  · intro c hc
                    have h1 := mem_firstToken _ c hc
                    have h2 := mem_pyStripL c g1 h1
                    have h3 := hfree c h2
                    simp [h3.1, h3.2]
                cases hb : looks_croatian ((pySplit (pyStrip (String.mk g1))).headD "") with
                | true => rfl
                | false =>
                  exfalso
                  apply hlooksneg
                  rw [hrs, hb]
                  rfl
              · exfalso
                have hdata : (pyStrip (String.mk g1)).data = pyStripL g1 := rfl
                rcases pyStripL_append_paren core inner with ⟨A, hA⟩
                have hsome := parenSearch_isSome A inner hin hinn
                rw [← hA, ← hg1, ← hdata, hps] at hsome
                simp at hsome

/-- Counterexample to C1 as stated: for the line "ab(čy) gloss" the
Croatian-look guard passes on the raw term "ab(čy)" (the diacritic sits
inside the parenthetical), but the returned `croatian` field is "ab",
whose first token neither contains a diacritic nor matches the
infinitive-suffix pattern. -/
theorem claim_C1_cex :
    parse_vocab_line "ab(čy) gloss" =
      some { croatian := "ab", english := "gloss", notes := "(čy)", type := "verb" } ∧
    looks_croatian ((pySplit "ab").headD "") = false := by
  constructor
  · decide
  · decide

/-- Witness for the amended C1 at the documented example line. -/
theorem claim_C1_witness :
    parse_vocab_line "čitati read" =
      some { croatian := "čitati", english := "read", notes := "", type := "verb" } ∧
    looks_croatian ((pySplit "čitati").headD "") = true :=
  ⟨by decide,
   claim_C1_amended "čitati read"
     { croatian := "čitati", english := "read", notes := "", type := "verb" }
     (by decide) (by decide)⟩

/-! ## Claims C3 and C4: the Output Assembler -/

theorem mem_insertLesson (a x : LessonOut) : ∀ (l : List LessonOut),
    a ∈ insertLesson x l ↔ a = x ∨ a ∈ l := by
  intro l
  induction l with
  | nil => simp [insertLesson]
  | cons y ys ih =>
    simp only [insertLesson]
    split
    · simp only [List.mem_cons, ih]
      tauto
    · simp only [List.mem_cons]

theorem mem_sortFold (a : LessonOut) : ∀ (l acc : List LessonOut),
    a ∈ l.foldl (fun acc x => insertLesson x acc) acc ↔ a ∈ acc ∨ a ∈ l := by
  intro l
  induction l with
  | nil => intro acc; simp
  | cons x xs ih =>
    intro acc
    simp only [List.foldl_cons]
    rw [ih]
    simp only [mem_insertLesson, List.mem_cons]
    tauto

theorem mem_sortLessons (a : LessonOut) (l : List LessonOut) :
    a ∈ sortLessons l ↔ a ∈ l := by
  unfold sortLessons
  rw [mem_sortFold]
  simp

theorem sorted_insertLesson (x : LessonOut) : ∀ (l : List LessonOut),
    List.Sorted (fun a b => lessonKey a ≤ lessonKey b) l →
    List.Sorted (fun a b => lessonKey a ≤ lessonKey b) (insertLesson x l) := by
  intro l
  induction l with
  | nil => intro _; simp [insertLesson]
  | cons y ys ih =>
    intro hs
    rw [List.sorted_cons] at hs
    obtain ⟨hy, hys⟩ := hs
    simp only [insertLesson]
    split
    · rename_i hle
      rw [List.sorted_cons]
      refine ⟨?_, ih hys⟩
      intro z hz
      rcases (mem_insertLesson z x ys).mp hz with rfl | hz
      · exact hle
      · exact hy z hz
    · rename_i hgt
      rw [List.sorted_cons]
      refine ⟨?_, ?_⟩
      · intro z hz
        rcases List.mem_cons.mp hz with rfl | hz
        · omega
        · have h1 := hy z hz
          omega
      · rw [List.sorted_cons]
        exact ⟨hy, hys⟩

theorem sorted_sortFold : ∀ (l acc : List LessonOut),
    List.Sorted (fun a b => lessonKey a ≤ lessonKey b) acc →
    List.Sorted (fun a b => lessonKey a ≤ lessonKey b)
      (l.foldl (fun acc x => insertLesson x acc) acc) := by
  intro l
  induction l with
  | nil => intro acc h; exact h
  | cons x xs ih =>
    intro acc h
    simp only [List.foldl_cons]
    exact ih _ (sorted_insertLesson x acc h)

theorem sorted_sortLessons (l : List LessonOut) :
    List.Sorted (fun a b => lessonKey a ≤ lessonKey b) (sortLessons l) :=
  sorted_sortFold l [] (by simp)

theorem routeSections_spec : ∀ (secs : List Section) (lsn : List LessonOut)
    (apx : List AppendixOut) (lst : List ListOut) (cd : List DictEntry),
    (routeSections secs (lsn, apx, lst, cd)).1 = lsn ++ lessonsRouted secs ∧
    (routeSections secs (lsn, apx, lst, cd)).2.1 = apx ++ appendicesRouted secs ∧
    (routeSections secs (lsn, apx, lst, cd)).2.2.1 = lst ++ listsRouted secs := by
  intro secs
  induction secs with
  | nil =>
    intro lsn apx lst cd
    simp [routeSections, lessonsRouted, appendicesRouted, listsRouted]
  | cons sec rest ih =>
    intro lsn apx lst cd
    simp only [routeSections]
    by_cases hcore : sec.id = "CORE"
    · rw [if_pos hcore]
      rcases ih lsn apx lst (parse_core_dict_entries (strip_footers sec.lines))
        with ⟨h1, h2, h3⟩
      refine ⟨?_, ?_, ?_⟩
      · rw [h1]
        unfold lessonsRouted
        rw [List.filter_cons, if_neg (by simp [hcore])]
      · rw [h2]
        unfold appendicesRouted
        rw [List.filter_cons, if_neg (by simp [hcore])]
      · rw [h3]
        unfold listsRouted
        rw [List.filter_cons, if_neg (by simp [hcore])]
    · rw [if_neg hcore]
      by_cases hA : matchAppendixId sec.id = true
      · rw [if_pos hA]
        rcases ih lsn (apx ++ [appendixOf sec]) lst cd with ⟨h1, h2, h3⟩
        refine ⟨?_, ?_, ?_⟩
        · rw [h1]
          unfold lessonsRouted
          rw [List.filter_cons, if_neg (by simp [hcore, hA])]
        · rw [h2]
          unfold appendicesRouted
          rw [List.filter_cons, if_pos (by simp [hcore, hA])]
          simp
        · rw [h3]
          unfold listsRouted
          rw [List.filter_cons, if_neg (by simp [hcore, hA])]
      · rw [if_neg hA]
        by_cases hL : matchListId sec.id = true
        · rw [if_pos hL]
          rcases ih lsn apx (lst ++ [listOf sec]) cd with ⟨h1, h2, h3⟩
          refine ⟨?_, ?_, ?_⟩
          · rw [h1]
            unfold lessonsRouted
            rw [List.filter_cons, if_neg (by simp [hcore, hA, hL])]
          · rw [h2]
            unfold appendicesRouted
            rw [List.filter_cons, if_neg (by simp [hcore, hA])]
          · rw [h3]
            unfold listsRouted
            rw [List.filter_cons, if_pos (by simp [hcore, hA, hL])]
            simp
        · rw [if_neg hL]
          rcases ih (lsn ++ [lessonOf sec]) apx lst cd with ⟨h1, h2, h3⟩
          refine ⟨?_, ?_, ?_⟩
          · rw [h1]
            unfold lessonsRouted
            rw [List.filter_cons, if_pos (by simp [hcore, hA, hL])]
            simp
          · rw [h2]
            unfold appendicesRouted
            rw [List.filter_cons, if_neg (by simp [hcore, hA])]
          · rw [h3]
            unfold listsRouted
            rw [List.filter_cons, if_neg (by simp [hcore, hA, hL])]

/-- Counterexample to C3 as stated: two sections with the same lesson id
"01" survive into the output in order (Python's sort is stable), so the
adjacent pair has equal, not strictly ascending, numeric ids. -/
theorem claim_C3_cex :
    (build_output [⟨"01", "A", none, []⟩, ⟨"01", "B", none, []⟩] tocEmpty).map
        (fun o => (o.lessons.map (fun r => r.id), lessonsStrictAscBool o.lessons)) =
      some (["01", "01"], false) := by
  decide

/-- C3 amended: in every document produced by `build_output` the lessons
are sorted ascending by numeric id — `int(lessons[i].id) ≤
int(lessons[i+1].id)` for adjacent records (strict ascent fails when an
id occurs twice) — while appendices and lists preserve the encounter
order of their sections. -/
theorem claim_C3_amended (secs : List Section) (toc : Toc) (out : Output)
    (h : build_output secs toc = some out) :
    List.Chain' (fun a b => lessonKey a ≤ lessonKey b) out.lessons ∧
    out.appendices.map (fun r => r.id) =
      (secs.filter (fun s => decide (s.id ≠ "CORE") && matchAppendixId s.id)).map
        (fun s => s.id) ∧
    out.lists.map (fun r => r.id) =
      (secs.filter (fun s =>
        decide (s.id ≠ "CORE") && !matchAppendixId s.id && matchListId s.id)).map
        (fun s => s.id) := by
  unfold build_output at h
  simp only [] at h
  split at h
  · injection h with h'
    subst h'
    rcases routeSections_spec secs [] [] [] [] with ⟨h1, h2, h3⟩
    refine ⟨?_, ?_, ?_⟩
    · dsimp only
      rw [h1, List.nil_append]
      exact List.Pairwise.chain' (sorted_sortLessons (lessonsRouted secs))
    · dsimp only
      rw [h2, List.nil_append]
      unfold appendicesRouted
      rw [List.map_map]
      rfl
    · dsimp only
      rw [h3, List.nil_append]
      unfold listsRouted
      rw [List.map_map]
      rfl
  · simp at h

/-- Witness for the amended C3 at concrete sections. -/
theorem claim_C3_witness :
    List.Chain' (fun a b => lessonKey a ≤ lessonKey b) w3out.lessons ∧
    w3out.appendices.map (fun r => r.id) =
      (w3secs.filter (fun s => decide (s.id ≠ "CORE") && matchAppendixId s.id)).map
        (fun s => s.id) ∧
    w3out.lists.map (fun r => r.id) =
      (w3secs.filter (fun s =>
        decide (s.id ≠ "CORE") && !matchAppendixId s.id && matchListId s.id)).map
        (fun s => s.id) :=
  claim_C3_amended w3secs tocEmpty w3out (by decide)

/-- Counterexample to C4 as stated: a section id "1" is routed to the
lessons collection (the else-branch accepts any id that is not CORE and
matches neither appendix nor list shape), and "1" does not match the
two-digit lesson pattern. -/
theorem claim_C4_cex :
    (build_output [⟨"1", "T", none, []⟩] tocEmpty).map
        (fun o => o.lessons.map (fun r => r.id)) = some ["1"] ∧
    matchTwoDigitId "1" = false := by
  constructor
  · decide
  · decide

/-- C4 amended: when every input section id has one of the four TOC
shapes, the routing invariant holds as claimed — every lessons record
matches the two-digit pattern, every appendices record matches the
appendix pattern, every lists record matches the list pattern, and CORE
never appears in any of the three collections. -/
theorem claim_C4_amended (secs : List Section) (toc : Toc) (out : Output)
    (hshape : ∀ s ∈ secs, sectionIdShaped s.id = true)
    (h : build_output secs toc = some out) :
    (∀ r ∈ out.lessons, matchTwoDigitId r.id = true ∧ r.id ≠ "CORE") ∧
    (∀ r ∈ out.appendices, matchAppendixId r.id = true ∧ r.id ≠ "CORE") ∧
    (∀ r ∈ out.lists, matchListId r.id = true ∧ r.id ≠ "CORE") := by
  unfold build_output at h
  simp only [] at h
  split at h
  · injection h with h'
    subst h'
    rcases routeSections_spec secs [] [] [] [] with ⟨h1, h2, h3⟩
    refine ⟨?_, ?_, ?_⟩
    · intro r hr
      dsimp only at hr
      rw [h1, List.nil_append] at hr
      rw [mem_sortLessons] at hr
      unfold lessonsRouted at hr
      rcases List.mem_map.mp hr with ⟨s, hs, rfl⟩
      rcases List.mem_filter.mp hs with ⟨hmem, hpred⟩
      have hsh := hshape s hmem
      simp only [Bool.and_eq_true, Bool.not_eq_true', decide_eq_true_eq] at hpred
      obtain ⟨⟨hncore, hnA⟩, hnL⟩ := hpred
      have h2d : matchTwoDigitId s.id = true := by
        unfold sectionIdShaped at hsh
        rw [hnA, hnL] at hsh
        simpa [hncore] using hsh
      exact ⟨h2d, hncore⟩
    · intro r hr
      dsimp only at hr
      rw [h2, List.nil_append] at hr
      unfold appendicesRouted at hr
      rcases List.mem_map.mp hr with ⟨s, hs, rfl⟩
      rcases List.mem_filter.mp hs with ⟨hmem, hpred⟩
      simp only [Bool.and_eq_true, decide_eq_true_eq] at hpred
      exact ⟨hpred.2, hpred.1⟩
    · intro r hr
      dsimp only at hr
      rw [h3, List.nil_append] at hr
      unfold listsRouted at hr
      rcases List.mem_map.mp hr with ⟨s, hs, rfl⟩
      rcases List.mem_filter.mp hs with ⟨hmem, hpred⟩
      simp only [Bool.and_eq_true, decide_eq_true_eq] at hpred
      exact ⟨hpred.2, hpred.1.1⟩
  · simp at h

/-- Witness for the amended C4 at concrete shaped sections. -/
theorem claim_C4_witness :
    (∀ s ∈ w4secs, sectionIdShaped s.id = true) ∧
    ((∀ r ∈ w4out.lessons, matchTwoDigitId r.id = true ∧ r.id ≠ "CORE") ∧
     (∀ r ∈ w4out.appendices, matchAppendixId r.id = true ∧ r.id ≠ "CORE") ∧
     (∀ r ∈ w4out.lists, matchListId r.id = true ∧ r.id ≠ "CORE")) :=
  ⟨by decide, claim_C4_amended w4secs tocEmpty w4out (by decide) (by decide)⟩
